import Mathlib

set_option maxHeartbeats 1000000

/-!
Verification development for the volar language core:
the language-context synchronization/versioning engine (src/unnamed/part_000),
the program overlay with diagnostic translation and the workspace resolver
(src/packages/language-server/src/common/workspace.ts), and the
write-all-generated-files handler
(src/packages/language-server/src/common/features/customFeatures.ts).

Snapshots are opaque values compared only for identity; they are embedded as
natural numbers.  JS `Map`s are embedded as association lists in insertion
order with unique keys; JS `Set`s as duplicate-free lists in insertion order.
-/

/-- Association-list lookup, modelling `Map.get` (keys are unique). -/
def lookupA {α : Type} : List (String × α) → String → Option α
  | [], _ => none
  | (k, v) :: rest, key => if k = key then some v else lookupA rest key

/-- Association-list insertion, modelling `Map.set`: an existing key keeps its
position, a fresh key is appended. -/
def setA {α : Type} : List (String × α) → String → α → List (String × α)
  | [], key, v => [(key, v)]
  | (k, w) :: rest, key, v =>
    if k = key then (key, v) :: rest else (k, w) :: setA rest key v

/-- Association-list removal, modelling `Map.delete`. -/
def deleteA {α : Type} (l : List (String × α)) (key : String) : List (String × α) :=
  l.filter (fun e => e.1 != key)

/-- `Map.has`. -/
def hasA {α : Type} (l : List (String × α)) (key : String) : Bool :=
  (lookupA l key).isSome

/-- `new Set(array)`: first-occurrence order, no duplicates. -/
def dedupKeep : List String → List String
  | [] => []
  | x :: xs => x :: (dedupKeep xs).filter (fun y => y != x)

/-- Index of the last occurrence of a character, modelling `String.lastIndexOf`
(`none` for the JS result `-1`). -/
def lastPosOf (c : Char) : List Char → Option Nat
  | [] => none
  | x :: xs =>
    match lastPosOf c xs with
    | some i => some (i + 1)
    | none => if x = c then some 0 else none

/-- `fileName.substring(fileName.lastIndexOf('.'))`: the extension including
the dot; the whole string when there is no dot (JS `substring(-1)`). -/
def extOf (s : String) : String :=
  match lastPosOf '.' s.toList with
  | some i => String.mk (s.toList.drop i)
  | none => s

/-- `fileName.substring(0, fileName.lastIndexOf('.'))`: the stem before the
last dot; empty when there is no dot (JS `substring(0, -1)`). -/
def stemOf (s : String) : String :=
  match lastPosOf '.' s.toList with
  | some i => String.mk (s.toList.take i)
  | none => ""

/- The generated-unit tree.  `kind` is the volar `FileKind` tag; kind 1
(`TypeScriptHostFile`) marks units submitted to the underlying engine. -/
mutual
inductive VFile : Type where
  | mk (fileName : String) (snapshot : Nat) (kind : Nat) (embedded : VFileList)
inductive VFileList : Type where
  | nil
  | cons (head : VFile) (tail : VFileList)
end

/-- `FileKind.TypeScriptHostFile`. -/
def tsHostFileKind : Nat := 1

def VFile.fileName : VFile → String
  | .mk n _ _ _ => n

def VFile.snapshot : VFile → Nat
  | .mk _ s _ _ => s

def VFile.kind : VFile → Nat
  | .mk _ _ k _ => k

/- `forEachEmbeddedFile`.  Modelled from the spec: the generated tree is "a
root unit plus descendant units"; the traversal visits the root first and then
every descendant in order (the language-core helper is not under src/). -/
mutual
def VFile.allEmbedded : VFile → List VFile
  | .mk n s k cs => .mk n s k cs :: VFileList.allEmbedded cs
def VFileList.allEmbedded : VFileList → List VFile
  | .nil => []
  | .cons c cs => c.allEmbedded ++ VFileList.allEmbedded cs
end

/-- A source document tracked by the virtual document store. -/
structure SourceDoc where
  snapshot : Nat
  languageId : Option String
  root : VFile

/-- A language module: may produce a generated tree for a
(path, snapshot, languageId) triple. -/
abbrev LanguageModuleF := String → Nat → Option String → Option VFile

/-- The virtual document store: source path to document, insertion order. -/
abbrev Store := List (String × SourceDoc)

/-- Modelled from the spec: `virtualFiles.updateSource` (virtualFiles.ts is
not under src/) — ask each registered language module in priority order; the
first module that accepts wins and its output tree replaces any previous tree
for that path; when every module rejects the store is left untouched. -/
def updateSource (mods : List LanguageModuleF) (st : Store) (fileName : String)
    (snap : Nat) (langId : Option String) : Option VFile × Store :=
  match mods.findSome? (fun m => m fileName snap langId) with
  | some root => (some root, setA st fileName ⟨snap, langId, root⟩)
  | none => (none, st)

/-- Modelled from the spec: `virtualFiles.deleteSource`. -/
def deleteSource (st : Store) (fileName : String) : Store :=
  deleteA st fileName

/-- Modelled from the spec: `virtualFiles.hasSource`. -/
def hasSource (st : Store) (fileName : String) : Bool :=
  hasA st fileName

/-- Modelled from the spec: `virtualFiles.getVirtualFile` — reverse lookup
from a generated path to its (unit, owning document) pair. -/
def getVirtualFile (st : Store) (fileName : String) : Option (VFile × SourceDoc) :=
  st.findSome? (fun e =>
    ((e.2.root.allEmbedded).find? (fun u => u.fileName == fileName)).map
      (fun u => (u, e.2)))

/-- Modelled from the spec: `virtualFiles.hasVirtualFile`. -/
def hasVirtualFile (st : Store) (fileName : String) : Bool :=
  (getVirtualFile st fileName).isSome

/-- The (post-proxy) language service host the context wraps. -/
structure Host where
  getProjectVersion : Option String
  getScriptFileNames : List String
  getScriptVersion : String → String
  getScriptSnapshot : String → Option Nat
  getScriptLanguageId : String → Option String
  fileExists : String → Bool
  isTsc : Bool

/-- The per-unit version record kept in `virtualFileVersions`. -/
structure VFVersion where
  value : Nat
  virtualFileSnapshot : Nat
  sourceFileSnapshot : Nat
deriving DecidableEq

/-- Mutable state of `createLanguageContext`. -/
structure CtxState where
  lastProjectVersion : Option String
  tsProjectVersion : Nat
  sources : Store
  sourceTsFileVersions : List (String × String)
  sourceFileVersions : List (String × String)
  virtualFileVersions : List (String × VFVersion)
  scriptSnapshots : List (String × String × Nat)

/-- The `.vue` loop of `update` (part_000:148-167): refresh every tracked
source document from the host; a missing snapshot deletes the document and
marks the project changed; a changed version string re-runs `updateSource`.
The accumulator is (store, sourceFileVersions, remainRootFiles,
shouldUpdateTsProject, virtualFilesUpdatedNum). -/
def step1 (host : Host) (mods : List LanguageModuleF) :
    List (String × SourceDoc) →
    Store × List (String × String) × List String × Bool × Nat →
    Store × List (String × String) × List String × Bool × Nat
  | [], acc => acc
  | (fileName, _) :: rest, (store, sfv, remain, flag, num) =>
    let remain := remain.filter (fun y => y != fileName)
    match host.getScriptSnapshot fileName with
    | none =>
      step1 host mods rest (deleteSource store fileName, sfv, remain, true, num + 1)
    | some snapshot =>
      let newVersion := host.getScriptVersion fileName
      if lookupA sfv fileName = some newVersion then
        step1 host mods rest (store, sfv, remain, flag, num)
      else
        step1 host mods rest
          ((updateSource mods store fileName snapshot (host.getScriptLanguageId fileName)).2,
           setA sfv fileName newVersion, remain, flag, num + 1)

/-- The add loop of `update` (part_000:175-183): try every remaining root
file as a candidate source document; an accepted file is removed from the
remaining set.  The accumulator is (store, remainRootFiles). -/
def step2 (host : Host) (mods : List LanguageModuleF) :
    List String → Store × List String → Store × List String
  | [], acc => acc
  | fileName :: rest, (store, remain) =>
    match host.getScriptSnapshot fileName with
    | some snapshot =>
      let r := updateSource mods store fileName snapshot (host.getScriptLanguageId fileName)
      match r.1 with
      | some _ => step2 host mods rest (r.2, remain.filter (fun y => y != fileName))
      | none => step2 host mods rest (r.2, remain)
    | none => step2 host mods rest (store, remain)

/-- The plain-file loop of `update` (part_000:186-199): a tracked plain file
whose version string changed is deleted (when gone) or re-recorded, and the
project is marked changed either way.  The accumulator is
(sourceTsFileVersions, shouldUpdateTsProject). -/
def step3a (host : Host) (remain : List String) :
    List (String × String) →
    List (String × String) × Bool → List (String × String) × Bool
  | [], acc => acc
  | (oldTsFileName, oldTsFileVersion) :: rest, (tsv, flag) =>
    let newVersion := host.getScriptVersion oldTsFileName
    if oldTsFileVersion = newVersion then
      step3a host remain rest (tsv, flag)
    else
      if !(remain.contains oldTsFileName) && (host.getScriptSnapshot oldTsFileName).isNone then
        step3a host remain rest (deleteA tsv oldTsFileName, true)
      else
        step3a host remain rest (setA tsv oldTsFileName newVersion, true)

/-- The plain-file add loop of `update` (part_000:201-208): a remaining root
file not yet tracked gets its version recorded and marks the project
changed. -/
def step3b (host : Host) :
    List String →
    List (String × String) × Bool → List (String × String) × Bool
  | [], acc => acc
  | nowFileName :: rest, (tsv, flag) =>
    if hasA tsv nowFileName then
      step3b host rest (tsv, flag)
    else
      step3b host rest (setA tsv nowFileName (host.getScriptVersion nowFileName), true)

/-- The engine-visible drift check of `update` (part_000:210-220): some
tracked document has an engine-visible generated unit whose snapshot differs
from the recorded one. -/
def embeddedDrift (vfv : List (String × VFVersion)) (store : Store) : Bool :=
  store.any (fun e =>
    (e.2.root.allEmbedded).any (fun u =>
      u.kind == tsHostFileKind &&
      (match lookupA vfv u.fileName with
       | some rec => rec.virtualFileSnapshot != u.snapshot
       | none => false)))

/-- The full-cycle body of `update` (part_000:142-224), run once the early
project-version check has passed. -/
def updateBody (host : Host) (mods : List LanguageModuleF) (st1 : CtxState) : CtxState :=
  let remainRootFiles := dedupKeep host.getScriptFileNames
  let r1 := step1 host mods st1.sources
    (st1.sources, st1.sourceFileVersions, remainRootFiles, false, 0)
  let store1 := r1.1
  let sfv1 := r1.2.1
  let remain1 := r1.2.2.1
  let flag1 := r1.2.2.2.1
  let num1 := r1.2.2.2.2
  let flag2 := flag1 || num1 == 0
  let r2 := step2 host mods remain1 (store1, remain1)
  let store2 := r2.1
  let remain2 := r2.2
  let r3 := step3a host remain2 st1.sourceTsFileVersions (st1.sourceTsFileVersions, flag2)
  let r4 := step3b host remain2 r3
  let tsv2 := r4.1
  let flag4 := r4.2
  let flag5 := flag4 || embeddedDrift st1.virtualFileVersions store2
  { st1 with
    sources := store2
    sourceFileVersions := sfv1
    sourceTsFileVersions := tsv2
    tsProjectVersion := if flag5 then st1.tsProjectVersion + 1 else st1.tsProjectVersion }

/-- `update` (part_000:132-225): the lazy synchronization cycle.  Skips
entirely when the host's project version is unchanged; otherwise refreshes
documents, registers additions, tracks plain files, and bumps
`tsProjectVersion` exactly when the cycle judged the engine-visible set
changed. -/
def update (host : Host) (mods : List LanguageModuleF) (st : CtxState) : CtxState :=
  let newProjectVersion := host.getProjectVersion
  let shouldUpdate := newProjectVersion.isNone || newProjectVersion != st.lastProjectVersion
  let st1 := { st with lastProjectVersion := newProjectVersion }
  if shouldUpdate then updateBody host mods st1
  else st1

/-- `getScriptVersion` (part_000:246-269): resolve the path to a
(unit, owning document) pair; create or bump its version record; fall back to
the raw host version for unresolved paths.  Returns the token string and the
updated `virtualFileVersions` map. -/
def getScriptVersion (host : Host) (sources : Store)
    (vfv : List (String × VFVersion)) (fileName : String) :
    String × List (String × VFVersion) :=
  match getVirtualFile sources fileName with
  | some (virtualFile, source) =>
    match lookupA vfv virtualFile.fileName with
    | none =>
      (toString (0 : Nat),
       setA vfv virtualFile.fileName ⟨0, virtualFile.snapshot, source.snapshot⟩)
    | some version =>
      if version.virtualFileSnapshot != virtualFile.snapshot
         || (host.isTsc && version.sourceFileSnapshot != source.snapshot) then
        (toString (version.value + 1),
         setA vfv virtualFile.fileName
           ⟨version.value + 1, virtualFile.snapshot, source.snapshot⟩)
      else
        (toString version.value, vfv)
  | none => (host.getScriptVersion fileName, vfv)

/-- `getScriptSnapshot` (part_000:270-287): compute the version, consult the
(lower-cased path, version)-keyed cache, else read the virtual file or the
host and record the result.  Returns the snapshot with the updated
`virtualFileVersions` and `scriptSnapshots` maps. -/
def getScriptSnapshot (host : Host) (sources : Store)
    (vfv : List (String × VFVersion)) (cache : List (String × String × Nat))
    (fileName : String) :
    Option Nat × List (String × VFVersion) × List (String × String × Nat) :=
  let r := getScriptVersion host sources vfv fileName
  let version := r.1
  let vfv1 := r.2
  let key := fileName.toLower
  let hit :=
    match lookupA cache key with
    | some c => if c.1 = version then some c.2 else none
    | none => none
  match hit with
  | some snap => (some snap, vfv1, cache)
  | none =>
    match getVirtualFile sources fileName with
    | some (virtualFile, _) =>
      (some virtualFile.snapshot, vfv1, setA cache key (version, virtualFile.snapshot))
    | none =>
      match host.getScriptSnapshot fileName with
      | some tsScript => (some tsScript, vfv1, setA cache key (version, tsScript))
      | none => (none, vfv1, cache)

/-- `fileExists` (part_000:37-72): a probed host-language-extension path whose
stem is an untracked source document with an available host snapshot is first
registered through `updateSource`; then the probe answers true exactly for
known virtual files or paths the raw host reports existing. -/
def fileExists (host : Host) (mods : List LanguageModuleF) (sources : Store)
    (fileName : String) : Bool × Store :=
  let ext := extOf fileName
  let sources1 :=
    if ext == ".js" || ext == ".ts" || ext == ".jsx" || ext == ".tsx" then
      let sourceFileName := stemOf fileName
      if !(hasSource sources sourceFileName) then
        match host.getScriptSnapshot sourceFileName with
        | some scriptSnapshot =>
          (updateSource mods sources sourceFileName scriptSnapshot
            (host.getScriptLanguageId sourceFileName)).2
        | none => sources
      else sources
    else sources
  if hasVirtualFile sources1 fileName then (true, sources1)
  else (host.fileExists fileName, sources1)

/-- `getRootFileNames` of the program overlay (workspace.ts:315-317): the
underlying program's root file names filtered through the context host view's
optional `fileExists`. -/
def getRootFileNames (programRootFileNames : List String)
    (fe : Option (String → Bool)) : List String :=
  programRootFileNames.filter (fun fileName =>
    match fe with
    | some f => f fileName
    | none => false)

/-- `s.startsWith(p)`. -/
def startsWithStr (s p : String) : Bool :=
  s.toList.take p.toList.length == p.toList

/-- `s.endsWith(p)`. -/
def endsWithStr (s p : String) : Bool :=
  s.toList.drop (s.toList.length - p.toList.length) == p.toList

/-- The `WriteVirtualFilesNotification` handler loop
(customFeatures.ts:119-127): every file of the derived host view that lies
under the current directory, is not one of the host's own script file names,
and has a snapshot, is written; everything else is skipped.  Returns the
(path, text) pairs written. -/
def writeVirtualFiles (tsHostFileNames : List String)
    (hostScriptFileNames : List String) (currentDirectory : String)
    (getSnapshotText : String → Option String) : List (String × String) :=
  match tsHostFileNames with
  | [] => []
  | virtualFile :: rest =>
    (if startsWithStr virtualFile currentDirectory
        && !(hostScriptFileNames.contains virtualFile) then
      match getSnapshotText virtualFile with
      | some text => [(virtualFile, text)]
      | none => []
    else []) ++ writeVirtualFiles rest hostScriptFileNames currentDirectory getSnapshotText

/-- `a.split('/')`. -/
def pathSegments (p : String) : List String := p.splitOn "/"

/-- Model of node's `posix.basename`: the last non-empty path segment. -/
def pathBasename (p : String) : String :=
  match ((p.splitOn "/").filter (fun seg => seg != "")).getLast? with
  | some b => b
  | none => p

/-- Model of node's `posix.dirname` (no trailing-slash handling: config paths
are plain file paths). -/
def pathDirname (p : String) : String :=
  match lastPosOf '/' p.toList with
  | none => "."
  | some 0 => "/"
  | some i => String.mk (p.toList.take i)

def segStartsWith : List String → List String → Bool
  | [], _ => true
  | _ :: _, [] => false
  | a :: as, b :: bs => a == b && segStartsWith as bs

/-- Modelled from the spec: "configurations whose directory is an ancestor of
(contains) the file" — the repository's `isFileInDir` helper
(utils/isFileInDir.ts) is not under src/.  A directory contains a file when
the directory's segments are a proper initial run of the file's segments. -/
def isFileInDir (file dir : String) : Bool :=
  segStartsWith (pathSegments dir) (pathSegments file) && file != dir

/-- `sortTsConfigs` (workspace.ts:250-271): the deterministic comparator over
candidate configuration paths (negative means `a` ranks strictly before
`b`). -/
def sortTsConfigs (file a b : String) : Int :=
  let inA := isFileInDir file (pathDirname a)
  let inB := isFileInDir file (pathDirname b)
  if inA != inB then
    (if inB then (1 : Int) else 0) - (if inA then (1 : Int) else 0)
  else
    let aLength := (pathSegments a).length
    let bLength := (pathSegments b).length
    if aLength = bLength then
      (if pathBasename b = "tsconfig.json" then (1 : Int) else 0)
        - (if pathBasename a = "tsconfig.json" then (1 : Int) else 0)
    else (bLength : Int) - (aLength : Int)

/-- `path.replace(/\\/g, '/')`. -/
def replaceBackslashes (s : String) : String :=
  String.mk (s.toList.map (fun c => if c = '\\' then '/' else c))

/-- Model of node's `posix.join` for a directory and a file name. -/
def pathJoin (a b : String) : String := a ++ "/" ++ b

/-- The reference-path fix of `getReferencesChains` (workspace.ts:195-207): a
reference path that does not exist is probed as a directory holding a
`tsconfig.json` or `jsconfig.json`. -/
def resolveRefPath (fe : String → Bool) (p0 : String) : String :=
  let p := replaceBackslashes p0
  if fe p then p
  else
    let newTsConfigPath := pathJoin p "tsconfig.json"
    let newJsConfigPath := pathJoin p "jsconfig.json"
    if fe newTsConfigPath then newTsConfigPath
    else if fe newJsConfigPath then newJsConfigPath
    else p

/-- Modelled from the spec: the configuration reference graph — canonical
configuration path to its parsed project references (configuration parsing
lives outside src/).  A path absent from the graph is one for which
`getParsedCommandLine` produces nothing. -/
abbrev CfgGraph := List (String × List String)

def lookupCfg (g : CfgGraph) (p : String) : Option (List String) :=
  (g.find? (fun e => e.1 == p)).map (fun e => e.2)

/-- `before.indexOf(p)` for a present element. -/
def firstIdx (p : String) : List String → Nat
  | [] => 0
  | x :: xs => if x = p then 0 else firstIdx p xs + 1

/-- Termination measure for `getReferencesChains`: twice the number of graph
keys not yet on the path (counting the current configuration as on it), plus
one when the current configuration is not literally in `before`. -/
def chainMeasure (g : CfgGraph) (tsConfig : String) (before : List String) : Nat :=
  2 * ((g.map Prod.fst).dedup.filter
        (fun k => !(decide (k ∈ before) || decide (k = tsConfig)))).length
    + (if tsConfig ∈ before then 0 else 1)

mutual
/-- `getReferencesChains` (workspace.ts:187-228): enumerate reference chains
from a configuration; a reference already on the `before` path truncates that
branch at the first occurrence instead of recursing. -/
def getReferencesChains (g : CfgGraph) (fe : String → Bool)
    (refs : List String) (tsConfig : String) (before : List String) :
    List (List String) :=
  if refs.isEmpty then [before ++ [tsConfig]]
  else refChains g fe refs tsConfig before
termination_by (chainMeasure g tsConfig before, refs.length + 1)
decreasing_by
exact Prod.Lex.right _ (Nat.lt_succ_self _)


/-- The `projectReferences` loop of `getReferencesChains`. -/
def refChains (g : CfgGraph) (fe : String → Bool)
    (refs : List String) (tsConfig : String) (before : List String) :
    List (List String) :=
  match refs with
  | [] => []
  | r :: rest =>
    (let p := resolveRefPath fe r
     if _hmem : before.contains p then
       [before.take (max (firstIdx p before) 1)]
     else
       match _hcfg : lookupCfg g p with
       | some refs2 => getReferencesChains g fe refs2 p (before ++ [tsConfig])
       | none => [])
    ++ refChains g fe rest tsConfig before
termination_by (chainMeasure g tsConfig before, refs.length)
decreasing_by
· apply Prod.Lex.left
  have filterLenLt : ∀ (l : List String) (F G : String → Bool),
      (∀ x, F x = true → G x = true) →
      ∀ x0, x0 ∈ l → G x0 = true → F x0 = false →
      (l.filter F).length < (l.filter G).length := by
    intro l F G himp x0 hx0 hG hF
    have h1 : l.filter F = (l.filter G).filter F := by
      rw [List.filter_filter]
      apply List.filter_congr
      intro x _
      cases hFx : F x with
      | false => simp
      | true => simp [himp x hFx]
    rw [h1]
    apply List.length_filter_lt_length_iff_exists.mpr
    exact ⟨x0, List.mem_filter.mpr ⟨hx0, hG⟩, by simp [hF]⟩
  have key : chainMeasure g p (before ++ [tsConfig]) < chainMeasure g tsConfig before := by
    have hnb : p ∉ before := by
      intro h
      exact _hmem (List.elem_iff.mpr h)
    have hpK : p ∈ (g.map Prod.fst).dedup := by
      unfold lookupCfg at _hcfg
      rcases Option.map_eq_some'.mp _hcfg with ⟨e, he, _⟩
      have hep : e.1 = p := by
        have := List.find?_some he
        simpa using this
      have hmem2 : e ∈ g := List.mem_of_find?_eq_some he
      rw [List.mem_dedup]
      exact hep ▸ List.mem_map_of_mem Prod.fst hmem2
    unfold chainMeasure
    by_cases hpt : p = tsConfig
    · subst hpt
      have hfeq : ((g.map Prod.fst).dedup.filter
          (fun k => !(decide (k ∈ before ++ [p]) || decide (k = p)))) =
          ((g.map Prod.fst).dedup.filter
          (fun k => !(decide (k ∈ before) || decide (k = p)))) := by
        apply List.filter_congr
        intro x _
        by_cases hx : x = p
        · subst hx; simp
        · simp [List.mem_append, hx]
      rw [hfeq]
      have h1 : p ∈ before ++ [p] := by simp
      have h2 : ¬ p ∈ before := hnb
      rw [if_pos h1, if_neg h2]
      omega
    · have hlt : ((g.map Prod.fst).dedup.filter
          (fun k => !(decide (k ∈ before ++ [tsConfig]) || decide (k = p)))).length <
          ((g.map Prod.fst).dedup.filter
          (fun k => !(decide (k ∈ before) || decide (k = tsConfig)))).length := by
        apply filterLenLt _ _ _ _ p hpK
        · simp [hnb, hpt]
        · simp
        · intro x hFx
          simp only [Bool.not_eq_true', Bool.or_eq_false_iff, decide_eq_false_iff_not,
            List.mem_append, List.mem_singleton] at hFx ⊢
          exact ⟨fun h => hFx.1 (Or.inl h), fun h => hFx.1 (Or.inr h)⟩
      have hflag : (if p ∈ before ++ [tsConfig] then 0 else 1) ≤ 1 := by
        split <;> omega
      omega
  exact key
· exact Prod.Lex.right _ (Nat.lt_succ_self _)
end

/-- A `ts.SourceFile` as the diagnostics code touches it: its name, its text,
and the script target it was parsed with. -/
structure TFile where
  fileName : String
  text : String
  target : Nat
deriving DecidableEq

/-- `ts.ScriptTarget.Latest`. -/
def scriptTargetLatest : Nat := 99

/-- `ts.ScriptTarget.JSON`. -/
def scriptTargetJSON : Nat := 100

/-- The script-target choice of `onMapping` (workspace.ts:437-449): a
syntax-aware parse mode for recognized host-language extensions, data-only
otherwise. -/
def scriptTargetFor (fileName : String) : Nat :=
  if endsWithStr fileName ".js" || endsWithStr fileName ".ts"
     || endsWithStr fileName ".jsx" || endsWithStr fileName ".tsx"
     || endsWithStr fileName ".mjs" || endsWithStr fileName ".mts"
     || endsWithStr fileName ".cjs" || endsWithStr fileName ".cts" then
    scriptTargetLatest
  else scriptTargetJSON

/-- One mapping range: paired generated/source ranges with the diagnostic
capability bit of its `data`. -/
structure Mapping where
  genStart : Nat
  genEnd : Nat
  srcStart : Nat
  srcEnd : Nat
  diagnostic : Bool
deriving DecidableEq

/-- Modelled from the spec: `map.toSourceOffsets` of the bidirectional mapping
view (the source-map layer is outside src/) — a generated offset resolves to
the source offsets of every range claiming it; the flag requests the
end-inclusive variant of the range test. -/
def toSourceOffsets (ms : List Mapping) (offset : Nat) (endIncl : Bool) :
    List (Nat × Mapping) :=
  ms.filterMap (fun m =>
    if m.genStart ≤ offset && (if endIncl then offset ≤ m.genEnd else offset < m.genEnd) then
      some (m.srcStart + (offset - m.genStart), m)
    else none)

/-- An owning source document as the diagnostics code touches it. -/
structure SourceInfo where
  fileName : String
  snapshotText : String
deriving DecidableEq

/-- The context `getProgram`'s `transformDiagnostics` reads: the store's
reverse lookup (by the diagnostic's file name, yielding the virtual file's
name and its owning document), the store's per-unit mappings, and the host
view's optional `fileExists`. -/
structure ProgramCtx where
  getVirtualFileP : String → Option (String × SourceInfo)
  getMapsP : String → List (String × List Mapping)
  fileExistsP : Option (String → Bool)

/-- `languageServiceHost.fileExists?.(name) === false`. -/
def feIsFalse (ctx : ProgramCtx) (fileName : String) : Bool :=
  match ctx.fileExistsP with
  | some fe => !(fe fileName)
  | none => false

/- A `ts.Diagnostic` as `transformDiagnostics` touches it: optional file,
optional start and length, optional related-information list, and an opaque
payload standing for every other field the spread copies.  The related list
makes this a mutual inductive. -/
mutual
inductive Diag : Type where
  | mk (file : Option TFile) (dstart : Option Nat) (dlength : Option Nat)
       (related : DiagRel) (payload : Nat)
inductive DiagRel : Type where
  | undef
  | defined (l : DiagList)
inductive DiagList : Type where
  | nil
  | cons (head : Diag) (tail : DiagList)
end

def Diag.file : Diag → Option TFile
  | .mk f _ _ _ _ => f

def Diag.dstart : Diag → Option Nat
  | .mk _ s _ _ _ => s

def Diag.dlength : Diag → Option Nat
  | .mk _ _ l _ _ => l

def Diag.related : Diag → DiagRel
  | .mk _ _ _ r _ => r

def Diag.payload : Diag → Nat
  | .mk _ _ _ _ p => p

def DiagList.append : DiagList → DiagList → DiagList
  | .nil, l => l
  | .cons d rest, l => .cons d (DiagList.append rest l)

def DiagList.toList : DiagList → List Diag
  | .nil => []
  | .cons d rest => d :: DiagList.toList rest

/-- The file reconstruction of `onMapping` (workspace.ts:425-452): keep the
diagnostic's own file when the resolved name agrees; otherwise parse a file
object from the document text when one was supplied (when no text was supplied
the source fetches one but never builds the file object, leaving it
undefined). -/
def onMappingFile (origFile : Option TFile) (fileName : String)
    (docText : Option String) : Option TFile :=
  let file :=
    match origFile with
    | some f => if fileName = f.fileName then some f else none
    | none => none
  match file with
  | some f => some f
  | none =>
    match docText with
    | none => none
    | some text => some ⟨fileName, text, scriptTargetFor fileName⟩

/-- The mapping scan of `transformDiagnostics` (workspace.ts:386-406): for
every map targeting the owning document, take the first diagnostic-capable
source offset of the start, then the first diagnostic-capable source offset of
the end (end-inclusive variant); both found pushes one rewritten diagnostic,
otherwise that map contributes nothing. -/
def mapsLoop (maps : List (String × List Mapping)) (sourceFileName : String)
    (s e : Nat) (mkDiag : Nat → Nat → Diag) : DiagList :=
  match maps with
  | [] => .nil
  | (sfn, ms) :: rest =>
    DiagList.append
      (if sfn = sourceFileName then
        match (toSourceOffsets ms s false).find? (fun q => q.2.diagnostic) with
        | some startMatch =>
          match (toSourceOffsets ms e true).find? (fun q => q.2.diagnostic) with
          | some endMatch => DiagList.cons (mkDiag startMatch.1 endMatch.1) .nil
          | none => .nil
        | none => .nil
      else .nil)
      (mapsLoop rest sourceFileName s e mkDiag)

mutual
/-- `transformDiagnostics` (workspace.ts:369-466): translate every diagnostic
carrying a file, start and length back to source coordinates through the
store's capability-tagged mappings; diagnostics resolving to a generated unit
with no matching capability-tagged range are dropped; diagnostics of vanished
files are dropped; file-less diagnostics pass through unchanged. -/
def transformDiagnostics (ctx : ProgramCtx) : DiagList → DiagList
  | .nil => .nil
  | .cons d rest =>
    DiagList.append (transformOne ctx d) (transformDiagnostics ctx rest)

/-- The per-diagnostic body of the loop in `transformDiagnostics`. -/
def transformOne (ctx : ProgramCtx) : Diag → DiagList
  | .mk file dstart dlength related payload =>
    match file, dstart, dlength with
    | some f, some s, some l =>
      let rel2 := transformRel ctx related
      (match ctx.getVirtualFileP f.fileName with
       | some (virtualFileName, source) =>
         if feIsFalse ctx source.fileName then .nil
         else
           mapsLoop (ctx.getMapsP virtualFileName) source.fileName s (s + l)
             (fun startOff endOff =>
               Diag.mk (onMappingFile (some f) source.fileName (some source.snapshotText))
                 (some startOff) (some (endOff - startOff)) rel2 payload)
       | none =>
         if feIsFalse ctx f.fileName then .nil
         else
           DiagList.cons
             (Diag.mk (onMappingFile (some f) f.fileName (some f.text))
               (some s) (some ((s + l) - s)) rel2 payload) .nil)
    | _, _, _ =>
      match file with
      | none => DiagList.cons (.mk file dstart dlength related payload) .nil
      | some _ => .nil

/-- Related-information translation (workspace.ts:459-462). -/
def transformRel (ctx : ProgramCtx) : DiagRel → DiagRel
  | .undef => .undef
  | .defined l => .defined (transformDiagnostics ctx l)
end

/-- The "nothing engine-visible changed while some source document did" side
condition for the project-version claim: every tracked document still has a
host snapshot (no deletion), at least one tracked document's host version
string changed (so the cycle is not the change-by-definition case), no tracked
plain file's version string changed, every host root file is already tracked
(no plain-file addition), and — over the refreshed store — every recorded
engine-visible generated unit still has its recorded snapshot identity. -/
abbrev noEngineVisibleChange (host : Host) (mods : List LanguageModuleF)
    (st : CtxState) : Prop :=
  (∀ e ∈ st.sources, (host.getScriptSnapshot e.1).isSome = true)
  ∧ (∃ e ∈ st.sources, lookupA st.sourceFileVersions e.1 ≠ some (host.getScriptVersion e.1))
  ∧ (∀ e ∈ st.sourceTsFileVersions, host.getScriptVersion e.1 = e.2)
  ∧ (∀ f ∈ host.getScriptFileNames,
      hasSource st.sources f = true ∨ hasA st.sourceTsFileVersions f = true)
  ∧ (∀ e ∈ (update host mods st).sources, ∀ u ∈ VFile.allEmbedded e.2.root,
      u.kind = tsHostFileKind → ∀ rec : VFVersion,
        lookupA st.virtualFileVersions u.fileName = some rec →
        rec.virtualFileSnapshot = u.snapshot)

/- Concrete instances used by the evaluation witnesses. -/

def vfA : VFile := .mk "/a.vue.ts" 20 tsHostFileKind .nil

def rootA : VFile := .mk "/a.vue" 10 0 (.cons vfA .nil)

def docA : SourceDoc := ⟨10, some "vue", rootA⟩

def storeA : Store := [("/a.vue", docA)]

def hostA : Host :=
  { getProjectVersion := some "2"
    getScriptFileNames := ["/a.vue", "/b.ts"]
    getScriptVersion := fun f => if f = "/b.ts" then "1" else "2"
    getScriptSnapshot := fun f => if f = "/a.vue" then some 11 else none
    getScriptLanguageId := fun _ => some "vue"
    fileExists := fun _ => false
    isTsc := true }

/-- `hostA` with an unchanged project version (for the no-op cycle). -/
def hostB : Host := { hostA with getProjectVersion := some "1" }

/-- A language module accepting `.vue` paths and emitting a root with one
engine-visible `.ts` unit whose snapshot identity is fixed at 20. -/
def modA : LanguageModuleF := fun fileName snap _ =>
  if endsWithStr fileName ".vue" then
    some (.mk fileName snap 0
      (.cons (.mk (fileName ++ ".ts") 20 tsHostFileKind .nil) .nil))
  else none

def stA : CtxState :=
  { lastProjectVersion := some "1"
    tsProjectVersion := 5
    sources := storeA
    sourceTsFileVersions := [("/b.ts", "1")]
    sourceFileVersions := [("/a.vue", "1")]
    virtualFileVersions := [("/a.vue.ts", ⟨3, 20, 10⟩)]
    scriptSnapshots := [] }

/-! Helper lemmas. -/

theorem lookupA_setA_self {α : Type} (l : List (String × α)) (k : String) (v : α) :
    lookupA (setA l k v) k = some v := by
  induction l with
  | nil => simp [setA, lookupA]
  | cons e rest ih =>
    obtain ⟨k1, w⟩ := e
    by_cases h : k1 = k
    · simp [setA, h, lookupA]
    · simp [setA, h, lookupA, ih]

theorem lookupA_setA_ne {α : Type} (l : List (String × α)) (k k2 : String) (v : α)
    (h : k2 ≠ k) : lookupA (setA l k v) k2 = lookupA l k2 := by
  induction l with
  | nil => simp [setA, lookupA, Ne.symm h]
  | cons e rest ih =>
    obtain ⟨k1, w⟩ := e
    by_cases h1 : k1 = k
    · subst h1
      simp [setA, lookupA, Ne.symm h]
    · simp only [setA, if_neg h1, lookupA]
      by_cases h2 : k1 = k2
      · simp [h2]
      · simp [h2, ih]

/-! C8: the overlay's root file names are exactly the program's root file
names the context host view still reports existing. -/

/-- C8: `getRootFileNames` returns exactly those of the underlying program's
root file names for which the context host view's `fileExists` answers true; a
name the context no longer considers existing never appears. -/
theorem C8_getRootFileNames (programRootFileNames : List String)
    (fe : Option (String → Bool)) (fileName : String) :
    fileName ∈ getRootFileNames programRootFileNames fe ↔
      fileName ∈ programRootFileNames ∧
        (match fe with | some f => f fileName | none => false) = true := by
  unfold getRootFileNames
  exact List.mem_filter

/-! C9: the write-all-generated-files operation never writes a path the host
owns as a source document. -/

/-- C9: a (path, text) pair is written by the `WriteVirtualFilesNotification`
handler exactly when the path is one of the derived host view's file names,
lies under the current directory, is absent from the host's own script file
name list, and has an available snapshot; in particular a path present in the
host's script file names is never written. -/
theorem C9_writeVirtualFiles (tsHostFileNames hostScriptFileNames : List String)
    (currentDirectory : String) (getSnapshotText : String → Option String)
    (p t : String) :
    (p, t) ∈ writeVirtualFiles tsHostFileNames hostScriptFileNames
        currentDirectory getSnapshotText ↔
      p ∈ tsHostFileNames ∧ startsWithStr p currentDirectory = true ∧
        hostScriptFileNames.contains p = false ∧ getSnapshotText p = some t := by
  induction tsHostFileNames with
  | nil => simp [writeVirtualFiles]
  | cons v rest ih =>
    simp only [writeVirtualFiles, List.mem_append, ih, List.mem_cons]
    constructor
    · rintro (h1 | h2)
      · split at h1
        · rename_i hcond
          rw [Bool.and_eq_true, Bool.not_eq_true'] at hcond
          split at h1
          · rename_i text hsnap
            simp only [List.mem_singleton, Prod.mk.injEq] at h1
            obtain ⟨hp, ht⟩ := h1
            subst hp; subst ht
            exact ⟨Or.inl rfl, hcond.1, hcond.2, hsnap⟩
          · simp at h1
        · simp at h1
      · obtain ⟨hmem, h2⟩ := h2
        exact ⟨Or.inr hmem, h2⟩
    · rintro ⟨hp | hmem, hsw, hnc, hsnap⟩
      · subst hp
        left
        rw [if_pos (by rw [Bool.and_eq_true, Bool.not_eq_true']; exact ⟨hsw, hnc⟩)]
        rw [hsnap]
        simp
      · right
        exact ⟨hmem, hsw, hnc, hsnap⟩

/-! C5: the configuration comparator. -/

/-- C5: `sortTsConfigs` orders `a` strictly before `b` (negative comparator
result) exactly when a's directory contains the file and b's does not; or, on
a tie there, a's path has more segments than b's; or, on a further tie, a's
base name is the canonical `tsconfig.json` and b's is not. -/
theorem C5_sortTsConfigs (file a b : String) :
    sortTsConfigs file a b < 0 ↔
      ((isFileInDir file (pathDirname a) = true ∧ isFileInDir file (pathDirname b) = false)
       ∨ (isFileInDir file (pathDirname a) = isFileInDir file (pathDirname b)
          ∧ (pathSegments a).length > (pathSegments b).length)
       ∨ (isFileInDir file (pathDirname a) = isFileInDir file (pathDirname b)
          ∧ (pathSegments a).length = (pathSegments b).length
          ∧ pathBasename a = "tsconfig.json" ∧ pathBasename b ≠ "tsconfig.json")) := by
  unfold sortTsConfigs
  cases hA : isFileInDir file (pathDirname a) <;>
    cases hB : isFileInDir file (pathDirname b) <;>
    by_cases hL : (pathSegments a).length = (pathSegments b).length <;>
    by_cases hBa : pathBasename a = "tsconfig.json" <;>
    by_cases hBb : pathBasename b = "tsconfig.json" <;>
    simp [hL, hBa, hBb]

/-! C3: per-unit version tokens. -/

theorem getScriptVersion_none (host : Host) (sources : Store)
    (vfv : List (String × VFVersion)) (fileName : String)
    (virtualFile : VFile) (source : SourceDoc)
    (hres : getVirtualFile sources fileName = some (virtualFile, source))
    (hl : lookupA vfv virtualFile.fileName = none) :
    getScriptVersion host sources vfv fileName =
      (toString (0 : Nat),
       setA vfv virtualFile.fileName ⟨0, virtualFile.snapshot, source.snapshot⟩) := by
  unfold getScriptVersion
  rw [hres]
  simp only []
  rw [hl]

theorem getScriptVersion_some (host : Host) (sources : Store)
    (vfv : List (String × VFVersion)) (fileName : String)
    (virtualFile : VFile) (source : SourceDoc) (version : VFVersion)
    (hres : getVirtualFile sources fileName = some (virtualFile, source))
    (hl : lookupA vfv virtualFile.fileName = some version) :
    getScriptVersion host sources vfv fileName =
      (if version.virtualFileSnapshot != virtualFile.snapshot
          || (host.isTsc && version.sourceFileSnapshot != source.snapshot) then
        (toString (version.value + 1),
         setA vfv virtualFile.fileName
           ⟨version.value + 1, virtualFile.snapshot, source.snapshot⟩)
       else (toString version.value, vfv)) := by
  unfold getScriptVersion
  rw [hres]
  simp only []
  rw [hl]

theorem getScriptVersion_stable (host : Host) (sources sources2 : Store)
    (vfv : List (String × VFVersion)) (fileName : String)
    (vf1 vf2 : VFile) (src1 src2 : SourceDoc)
    (h1 : getVirtualFile sources fileName = some (vf1, src1))
    (h2 : getVirtualFile sources2 fileName = some (vf2, src2))
    (hname : vf2.fileName = vf1.fileName)
    (hsnap : vf2.snapshot = vf1.snapshot)
    (hsrc : host.isTsc = true → src2.snapshot = src1.snapshot) :
    getScriptVersion host sources2 (getScriptVersion host sources vfv fileName).2 fileName
      = getScriptVersion host sources vfv fileName := by
  have hns : ∀ rec : VFVersion, rec.virtualFileSnapshot = vf1.snapshot →
      rec.sourceFileSnapshot = src1.snapshot →
      (rec.virtualFileSnapshot != vf2.snapshot
        || (host.isTsc && rec.sourceFileSnapshot != src2.snapshot)) = false := by
    intro rec hv hs
    rw [hv, hsnap, bne_self_eq_false, Bool.false_or]
    cases hT : host.isTsc with
    | false => simp
    | true => rw [hs, hsrc hT, bne_self_eq_false, Bool.and_false]
  cases hl : lookupA vfv vf1.fileName with
  | none =>
    rw [getScriptVersion_none host sources vfv fileName vf1 src1 h1 hl]
    rw [getScriptVersion_some host sources2 _ fileName vf2 src2
      ⟨0, vf1.snapshot, src1.snapshot⟩ h2 (by rw [hname]; exact lookupA_setA_self vfv _ _)]
    simp only [hns ⟨0, vf1.snapshot, src1.snapshot⟩ rfl rfl, Bool.false_eq_true,
      if_false]
  | some version =>
    by_cases hc : (version.virtualFileSnapshot != vf1.snapshot
        || (host.isTsc && version.sourceFileSnapshot != src1.snapshot)) = true
    · rw [getScriptVersion_some host sources vfv fileName vf1 src1 version h1 hl,
        if_pos hc]
      rw [getScriptVersion_some host sources2 _ fileName vf2 src2
        ⟨version.value + 1, vf1.snapshot, src1.snapshot⟩ h2
        (by rw [hname]; exact lookupA_setA_self vfv _ _)]
      simp only [hns ⟨version.value + 1, vf1.snapshot, src1.snapshot⟩ rfl rfl,
        Bool.false_eq_true, if_false]
    · rw [getScriptVersion_some host sources vfv fileName vf1 src1 version h1 hl,
        if_neg hc]
      rw [getScriptVersion_some host sources2 _ fileName vf2 src2 version h2
        (by rw [hname]; exact hl)]
      rw [Bool.or_eq_true, not_or] at hc
      obtain ⟨hcv, hct⟩ := hc
      rw [Bool.not_eq_true, bne_eq_false_iff_eq] at hcv
      have hfalse : (version.virtualFileSnapshot != vf2.snapshot
          || (host.isTsc && version.sourceFileSnapshot != src2.snapshot)) = false := by
        rw [hcv, hsnap, bne_self_eq_false, Bool.false_or]
        cases hT : host.isTsc with
        | false => simp
        | true =>
          rw [Bool.not_eq_true, Bool.and_eq_false_iff] at hct
          rcases hct with hct | hct
          · rw [hT] at hct; exact absurd hct (by simp)
          · rw [bne_eq_false_iff_eq] at hct
            rw [hsrc hT, hct, bne_self_eq_false, Bool.and_false]
      simp only [hfalse, Bool.false_eq_true, if_false]

/-- C3: for a path resolving to a (unit, owning document) pair,
`getScriptVersion` returns the unit's version token as a decimal string; a
fresh record starts at token 0; an existing record is bumped exactly when the
unit's own snapshot identity changed or — in batch-checking mode
(`host.isTsc`) — the owning document's snapshot identity changed; and two
successive calls between which both snapshot identities are unchanged return
equal tokens. -/
theorem C3_getScriptVersion (host : Host) (sources : Store)
    (vfv : List (String × VFVersion)) (fileName : String)
    (virtualFile : VFile) (source : SourceDoc)
    (hres : getVirtualFile sources fileName = some (virtualFile, source)) :
    (lookupA vfv virtualFile.fileName = none →
      getScriptVersion host sources vfv fileName =
        (toString (0 : Nat),
         setA vfv virtualFile.fileName ⟨0, virtualFile.snapshot, source.snapshot⟩))
    ∧ (∀ version : VFVersion, lookupA vfv virtualFile.fileName = some version →
        getScriptVersion host sources vfv fileName =
          (if version.virtualFileSnapshot != virtualFile.snapshot
              || (host.isTsc && version.sourceFileSnapshot != source.snapshot) then
            (toString (version.value + 1),
             setA vfv virtualFile.fileName
               ⟨version.value + 1, virtualFile.snapshot, source.snapshot⟩)
           else (toString version.value, vfv)))
    ∧ (∀ (sources2 : Store) (virtualFile2 : VFile) (source2 : SourceDoc),
        getVirtualFile sources2 fileName = some (virtualFile2, source2) →
        virtualFile2.fileName = virtualFile.fileName →
        virtualFile2.snapshot = virtualFile.snapshot →
        (host.isTsc = true → source2.snapshot = source.snapshot) →
        (getScriptVersion host sources2
            (getScriptVersion host sources vfv fileName).2 fileName).1
          = (getScriptVersion host sources vfv fileName).1) := by
  refine ⟨?_, ?_, ?_⟩
  · intro hl
    exact getScriptVersion_none host sources vfv fileName virtualFile source hres hl
  · intro version hl
    exact getScriptVersion_some host sources vfv fileName virtualFile source version hres hl
  · intro sources2 virtualFile2 source2 h2 hname hsnap hsrc
    rw [getScriptVersion_stable host sources sources2 vfv fileName virtualFile
      virtualFile2 source source2 hres h2 hname hsnap hsrc]

/-- C3 witness: on the concrete store, `/a.vue.ts` resolves to its unit, a
first call creates token "0", and a second call with unchanged snapshots
returns the same token. -/
theorem C3_witness :
    getVirtualFile storeA "/a.vue.ts" = some (vfA, docA)
    ∧ getScriptVersion hostA storeA [] "/a.vue.ts"
        = (toString (0 : Nat), [("/a.vue.ts", ⟨0, 20, 10⟩)])
    ∧ (getScriptVersion hostA storeA
          (getScriptVersion hostA storeA [] "/a.vue.ts").2 "/a.vue.ts").1
        = (getScriptVersion hostA storeA [] "/a.vue.ts").1 :=
  ⟨rfl,
   (C3_getScriptVersion hostA storeA [] "/a.vue.ts" vfA docA rfl).1 rfl,
   (C3_getScriptVersion hostA storeA [] "/a.vue.ts" vfA docA rfl).2.2
     storeA vfA docA rfl rfl rfl (fun _ => rfl)⟩

/-! C6: existence probing registers untracked source-document stems. -/

/-- C6: probing a host-language-extension path whose extension-stripped stem
is not yet a tracked source document but has a host snapshot first registers
the stem through `updateSource`, and then answers true exactly when the probed
path is a known virtual file of the resulting store or the raw host
`fileExists` answers true. -/
theorem C6_fileExists (host : Host) (mods : List LanguageModuleF) (sources : Store)
    (fileName : String) (snap : Nat)
    (hext : extOf fileName = ".js" ∨ extOf fileName = ".ts"
      ∨ extOf fileName = ".jsx" ∨ extOf fileName = ".tsx")
    (hns : hasSource sources (stemOf fileName) = false)
    (hsnap : host.getScriptSnapshot (stemOf fileName) = some snap) :
    fileExists host mods sources fileName =
      ((hasVirtualFile (updateSource mods sources (stemOf fileName) snap
          (host.getScriptLanguageId (stemOf fileName))).2 fileName
        || host.fileExists fileName),
       (updateSource mods sources (stemOf fileName) snap
          (host.getScriptLanguageId (stemOf fileName))).2) := by
  unfold fileExists
  have hcond : (extOf fileName == ".js" || extOf fileName == ".ts"
      || extOf fileName == ".jsx" || extOf fileName == ".tsx") = true := by
    rcases hext with h | h | h | h <;> simp [h]
  simp only [hcond, if_true, hns, Bool.not_false, if_true, hsnap]
  cases hvf : hasVirtualFile (updateSource mods sources (stemOf fileName) snap
      (host.getScriptLanguageId (stemOf fileName))).2 fileName with
  | true => simp [hvf]
  | false => simp [hvf]

/-- C6 witness: probing `/a.vue.ts` over an empty store with a host that
supplies a snapshot for the stem `/a.vue` registers the stem and answers
through the resulting store. -/
theorem C6_witness :
    extOf "/a.vue.ts" = ".ts"
    ∧ hasSource ([] : Store) (stemOf "/a.vue.ts") = false
    ∧ hostA.getScriptSnapshot (stemOf "/a.vue.ts") = some 11
    ∧ fileExists hostA [modA] ([] : Store) "/a.vue.ts" =
        ((hasVirtualFile (updateSource [modA] ([] : Store) (stemOf "/a.vue.ts") 11
            (hostA.getScriptLanguageId (stemOf "/a.vue.ts"))).2 "/a.vue.ts"
          || hostA.fileExists "/a.vue.ts"),
         (updateSource [modA] ([] : Store) (stemOf "/a.vue.ts") 11
            (hostA.getScriptLanguageId (stemOf "/a.vue.ts"))).2) :=
  ⟨by decide, rfl, by decide,
   C6_fileExists hostA [modA] [] "/a.vue.ts" 11
     (Or.inr (Or.inl (by decide))) rfl (by decide)⟩

/-! C7: snapshot retrieval caches by (path, version). -/

theorem getScriptVersion_idem (host : Host) (sources : Store)
    (vfv : List (String × VFVersion)) (fileName : String) :
    getScriptVersion host sources (getScriptVersion host sources vfv fileName).2 fileName
      = getScriptVersion host sources vfv fileName := by
  cases hg : getVirtualFile sources fileName with
  | none =>
    have h1 : getScriptVersion host sources vfv fileName
        = (host.getScriptVersion fileName, vfv) := by
      unfold getScriptVersion
      rw [hg]
    rw [h1]
    exact h1
  | some pr =>
    obtain ⟨vf, src⟩ := pr
    exact getScriptVersion_stable host sources sources vfv fileName vf vf src src
      hg hg rfl rfl (fun _ => rfl)

theorem getScriptSnapshot_eq (host : Host) (sources : Store)
    (vfv : List (String × VFVersion)) (cache : List (String × String × Nat))
    (fileName : String) (vs : String) (vm : List (String × VFVersion))
    (hv : getScriptVersion host sources vfv fileName = (vs, vm)) :
    getScriptSnapshot host sources vfv cache fileName =
      (match (match lookupA cache fileName.toLower with
              | some c => if c.1 = vs then some c.2 else none
              | none => none) with
       | some snap => (some snap, vm, cache)
       | none =>
         match getVirtualFile sources fileName with
         | some (virtualFile, _) =>
           (some virtualFile.snapshot, vm,
            setA cache fileName.toLower (vs, virtualFile.snapshot))
         | none =>
           match host.getScriptSnapshot fileName with
           | some tsScript =>
             (some tsScript, vm, setA cache fileName.toLower (vs, tsScript))
           | none => (none, vm, cache)) := by
  unfold getScriptSnapshot
  rw [hv]

/-- C7: snapshot retrieval through the derived host view is cached by
(path, version): a second `getScriptSnapshot` call in an unchanged state
returns exactly the first call's result (value and caches), and any produced
snapshot is recorded in the `scriptSnapshots` cache under the lower-cased path
together with the version it was computed at. -/
theorem C7_getScriptSnapshot (host : Host) (sources : Store)
    (vfv : List (String × VFVersion)) (cache : List (String × String × Nat))
    (fileName : String) :
    getScriptSnapshot host sources
        (getScriptSnapshot host sources vfv cache fileName).2.1
        (getScriptSnapshot host sources vfv cache fileName).2.2 fileName
      = getScriptSnapshot host sources vfv cache fileName
    ∧ (∀ snap : Nat, (getScriptSnapshot host sources vfv cache fileName).1 = some snap →
        ∃ version : String,
          lookupA (getScriptSnapshot host sources vfv cache fileName).2.2
            fileName.toLower = some (version, snap)) := by
  cases hv : getScriptVersion host sources vfv fileName with
  | mk vs vm =>
  have hv2 : getScriptVersion host sources vm fileName = (vs, vm) := by
    have h := getScriptVersion_idem host sources vfv fileName
    rw [hv] at h
    exact h
  have h1 := getScriptSnapshot_eq host sources vfv cache fileName vs vm hv
  cases hl : lookupA cache fileName.toLower with
  | some c =>
    by_cases hc : c.1 = vs
    · -- cache hit
      have hr1 : getScriptSnapshot host sources vfv cache fileName
          = (some c.2, vm, cache) := by
        rw [h1, hl]
        simp only []
        rw [if_pos hc]
      rw [hr1]
      constructor
      · rw [getScriptSnapshot_eq host sources vm cache fileName vs vm hv2, hl]
        simp only []
        rw [if_pos hc]
      · intro snap hsnap
        simp only [Option.some.injEq] at hsnap
        subst hsnap
        refine ⟨c.1, ?_⟩
        rw [hl]
    · -- stale cache entry: miss
      have hmiss : (match lookupA cache fileName.toLower with
          | some c => if c.1 = vs then some c.2 else none
          | none => none) = (none : Option Nat) := by
        rw [hl]
        simp only []
        rw [if_neg hc]
      cases hg : getVirtualFile sources fileName with
      | some pr =>
        obtain ⟨vf, src⟩ := pr
        have hr1 : getScriptSnapshot host sources vfv cache fileName
            = (some vf.snapshot, vm, setA cache fileName.toLower (vs, vf.snapshot)) := by
          rw [h1, hmiss, hg]
        rw [hr1]
        constructor
        · rw [getScriptSnapshot_eq host sources vm _ fileName vs vm hv2,
            lookupA_setA_self]
          simp
        · intro snap hsnap
          simp only [Option.some.injEq] at hsnap
          subst hsnap
          exact ⟨vs, lookupA_setA_self cache _ _⟩
      | none =>
        cases hh : host.getScriptSnapshot fileName with
        | some tsScript =>
          have hr1 : getScriptSnapshot host sources vfv cache fileName
              = (some tsScript, vm, setA cache fileName.toLower (vs, tsScript)) := by
            rw [h1, hmiss, hg, hh]
          rw [hr1]
          constructor
          · rw [getScriptSnapshot_eq host sources vm _ fileName vs vm hv2,
              lookupA_setA_self]
            simp
          · intro snap hsnap
            simp only [Option.some.injEq] at hsnap
            subst hsnap
            exact ⟨vs, lookupA_setA_self cache _ _⟩
        | none =>
          have hr1 : getScriptSnapshot host sources vfv cache fileName
              = (none, vm, cache) := by
            rw [h1, hmiss, hg, hh]
          rw [hr1]
          constructor
          · rw [getScriptSnapshot_eq host sources vm cache fileName vs vm hv2, hl]
            simp only []
            rw [if_neg hc, hg, hh]
          · intro snap hsnap
            simp at hsnap
  | none =>
    have hmiss : (match lookupA cache fileName.toLower with
        | some c => if c.1 = vs then some c.2 else none
        | none => none) = (none : Option Nat) := by
      rw [hl]
    cases hg : getVirtualFile sources fileName with
    | some pr =>
      obtain ⟨vf, src⟩ := pr
      have hr1 : getScriptSnapshot host sources vfv cache fileName
          = (some vf.snapshot, vm, setA cache fileName.toLower (vs, vf.snapshot)) := by
        rw [h1, hmiss, hg]
      rw [hr1]
      constructor
      · rw [getScriptSnapshot_eq host sources vm _ fileName vs vm hv2,
          lookupA_setA_self]
        simp
      · intro snap hsnap
        simp only [Option.some.injEq] at hsnap
        subst hsnap
        exact ⟨vs, lookupA_setA_self cache _ _⟩
    | none =>
      cases hh : host.getScriptSnapshot fileName with
      | some tsScript =>
        have hr1 : getScriptSnapshot host sources vfv cache fileName
            = (some tsScript, vm, setA cache fileName.toLower (vs, tsScript)) := by
          rw [h1, hmiss, hg, hh]
        rw [hr1]
        constructor
        · rw [getScriptSnapshot_eq host sources vm _ fileName vs vm hv2,
            lookupA_setA_self]
          simp
        · intro snap hsnap
          simp only [Option.some.injEq] at hsnap
          subst hsnap
          exact ⟨vs, lookupA_setA_self cache _ _⟩
      | none =>
        have hr1 : getScriptSnapshot host sources vfv cache fileName
            = (none, vm, cache) := by
          rw [h1, hmiss, hg, hh]
        rw [hr1]
        constructor
        · rw [getScriptSnapshot_eq host sources vm cache fileName vs vm hv2, hl,
            hg, hh]
        · intro snap hsnap
          simp at hsnap

/-- C7 witness: retrieving `/a.vue.ts` records its snapshot in the cache under
its lower-cased path and version. -/
theorem C7_witness :
    (getScriptSnapshot hostA storeA [] [] "/a.vue.ts").1 = some 20
    ∧ ∃ version : String,
        lookupA (getScriptSnapshot hostA storeA [] [] "/a.vue.ts").2.2
          ("/a.vue.ts".toLower) = some (version, 20) :=
  ⟨by decide, (C7_getScriptSnapshot hostA storeA [] [] "/a.vue.ts").2 20 (by decide)⟩

/-! C10 and C2: diagnostic translation. -/

theorem DiagList_toList_append : ∀ l1 l2 : DiagList,
    (DiagList.append l1 l2).toList = l1.toList ++ l2.toList
  | .nil, l2 => by simp [DiagList.append, DiagList.toList]
  | .cons d rest, l2 => by
    simp [DiagList.append, DiagList.toList, DiagList_toList_append rest l2]

theorem DiagList_append_nil : ∀ l : DiagList, DiagList.append l .nil = l
  | .nil => rfl
  | .cons d rest => by
    simp [DiagList.append, DiagList_append_nil rest]

theorem mem_transform (ctx : ProgramCtx) : ∀ (ds : DiagList) (e : Diag),
    e ∈ (transformDiagnostics ctx ds).toList ↔
      ∃ d, d ∈ ds.toList ∧ e ∈ (transformOne ctx d).toList
  | .nil, e => by simp [transformDiagnostics, DiagList.toList]
  | .cons d rest, e => by
    simp only [transformDiagnostics, DiagList.toList, DiagList_toList_append,
      List.mem_append, List.mem_cons, mem_transform ctx rest e]
    constructor
    · rintro (h | ⟨d0, hd0, hmem⟩)
      · exact ⟨d, Or.inl rfl, h⟩
      · exact ⟨d0, Or.inr hd0, hmem⟩
    · rintro ⟨d0, hd0 | hd0, hmem⟩
      · subst hd0; exact Or.inl hmem
      · exact Or.inr ⟨d0, hd0, hmem⟩

theorem mapsLoop_shape (maps : List (String × List Mapping)) (sourceFileName : String)
    (s e0 : Nat) (mkD : Nat → Nat → Diag) :
    ∀ x ∈ (mapsLoop maps sourceFileName s e0 mkD).toList, ∃ so eo, x = mkD so eo := by
  induction maps with
  | nil => intro x hx; simp [mapsLoop, DiagList.toList] at hx
  | cons m rest ih =>
    intro x hx
    obtain ⟨sfn, ms⟩ := m
    simp only [mapsLoop, DiagList_toList_append, List.mem_append] at hx
    rcases hx with hx | hx
    · by_cases hs : sfn = sourceFileName
      · rw [if_pos hs] at hx
        cases hstart : (toSourceOffsets ms s false).find? (fun q => q.2.diagnostic) with
        | none => rw [hstart] at hx; simp [DiagList.toList] at hx
        | some startMatch =>
          rw [hstart] at hx
          cases hend : (toSourceOffsets ms e0 true).find? (fun q => q.2.diagnostic) with
          | none => rw [hend] at hx; simp [DiagList.toList] at hx
          | some endMatch =>
            rw [hend] at hx
            simp only [DiagList.toList, List.mem_singleton] at hx
            exact ⟨startMatch.1, endMatch.1, hx⟩
      · rw [if_neg hs] at hx; simp [DiagList.toList] at hx
    · exact ih x hx

theorem mapsLoop_nil (maps : List (String × List Mapping)) (sourceFileName : String)
    (s e0 : Nat) (mkD : Nat → Nat → Diag)
    (h : ∀ m ∈ maps, m.1 = sourceFileName →
      ¬((∃ q ∈ toSourceOffsets m.2 s false, q.2.diagnostic = true) ∧
        (∃ q ∈ toSourceOffsets m.2 e0 true, q.2.diagnostic = true))) :
    mapsLoop maps sourceFileName s e0 mkD = .nil := by
  induction maps with
  | nil => rfl
  | cons m rest ih =>
    obtain ⟨sfn, ms⟩ := m
    have hrest : mapsLoop rest sourceFileName s e0 mkD = .nil :=
      ih (fun m hm => h m (List.mem_cons_of_mem _ hm))
    simp only [mapsLoop, hrest]
    by_cases hs : sfn = sourceFileName
    · rw [if_pos hs]
      have hm := h (sfn, ms) (List.mem_cons_self _ _) hs
      cases hstart : (toSourceOffsets ms s false).find? (fun q => q.2.diagnostic) with
      | none => rfl
      | some startMatch =>
        cases hend : (toSourceOffsets ms e0 true).find? (fun q => q.2.diagnostic) with
        | none => rfl
        | some endMatch =>
          exfalso
          apply hm
          constructor
          · exact ⟨startMatch, List.mem_of_find?_eq_some hstart,
              by simpa using List.find?_some hstart⟩
          · exact ⟨endMatch, List.mem_of_find?_eq_some hend,
              by simpa using List.find?_some hend⟩
    · rw [if_neg hs]
      rfl

theorem mapsLoop_exists (maps : List (String × List Mapping)) (sourceFileName : String)
    (s e0 : Nat) (mkD : Nat → Nat → Diag)
    (h : mapsLoop maps sourceFileName s e0 mkD ≠ .nil) :
    ∃ m ∈ maps, m.1 = sourceFileName ∧
      (∃ q ∈ toSourceOffsets m.2 s false, q.2.diagnostic = true) ∧
      (∃ q ∈ toSourceOffsets m.2 e0 true, q.2.diagnostic = true) := by
  by_contra hcon
  apply h
  apply mapsLoop_nil
  intro m hm hs hab
  exact hcon ⟨m, hm, hs, hab⟩

theorem transformOne_virtual (ctx : ProgramCtx) (f : TFile) (s l : Nat)
    (related : DiagRel) (payload : Nat) (virtualFileName : String)
    (source : SourceInfo)
    (hres : ctx.getVirtualFileP f.fileName = some (virtualFileName, source))
    (hex : feIsFalse ctx source.fileName = false) :
    transformOne ctx (.mk (some f) (some s) (some l) related payload)
      = mapsLoop (ctx.getMapsP virtualFileName) source.fileName s (s + l)
          (fun startOff endOff =>
            Diag.mk (onMappingFile (some f) source.fileName (some source.snapshotText))
              (some startOff) (some (endOff - startOff))
              (transformRel ctx related) payload) := by
  rw [transformOne]
  simp only [hres, hex, Bool.false_eq_true, if_false]

theorem transformOne_noFile (ctx : ProgramCtx) (dstart dlength : Option Nat)
    (related : DiagRel) (payload : Nat) :
    transformOne ctx (.mk none dstart dlength related payload)
      = .cons (.mk none dstart dlength related payload) .nil := by
  rw [transformOne]

theorem transformOne_shape (ctx : ProgramCtx) (d : Diag) :
    ∀ e ∈ (transformOne ctx d).toList,
      ((∃ so, e.dstart = some so) ∧ (∃ lo, e.dlength = some lo))
        ∨ (e = d ∧ d.file = none) := by
  intro e he
  cases d with
  | mk file dstart dlength related payload =>
    cases file with
    | none =>
      rw [transformOne_noFile] at he
      simp only [DiagList.toList, List.mem_singleton] at he
      exact Or.inr ⟨he, rfl⟩
    | some f =>
      cases dstart with
      | none =>
        cases dlength with
        | none =>
          rw [transformOne] at he
          · simp [DiagList.toList] at he
          · exact fun _ _ _ _ h _ => Option.noConfusion h
        | some l =>
          rw [transformOne] at he
          · simp [DiagList.toList] at he
          · exact fun _ _ _ _ h _ => Option.noConfusion h
      | some s =>
        cases dlength with
        | none =>
          rw [transformOne] at he
          · simp [DiagList.toList] at he
          · exact fun _ _ _ _ _ h => Option.noConfusion h
        | some l =>
          rw [transformOne] at he
          cases hres : ctx.getVirtualFileP f.fileName with
          | some pr =>
            obtain ⟨virtualFileName, source⟩ := pr
            rw [hres] at he
            simp only [] at he
            by_cases hex : feIsFalse ctx source.fileName
            · rw [if_pos hex] at he
              simp [DiagList.toList] at he
            · rw [if_neg hex] at he
              obtain ⟨so, eo, heq⟩ := mapsLoop_shape _ _ _ _ _ e he
              subst heq
              exact Or.inl ⟨⟨so, rfl⟩, ⟨eo - so, rfl⟩⟩
          | none =>
            rw [hres] at he
            simp only [] at he
            by_cases hex : feIsFalse ctx f.fileName
            · rw [if_pos hex] at he
              simp [DiagList.toList] at he
            · rw [if_neg hex] at he
              simp only [DiagList.toList, List.mem_singleton] at he
              subst he
              exact Or.inl ⟨⟨s, rfl⟩, ⟨s + l - s, rfl⟩⟩

/-- C10: `transformDiagnostics` drops every diagnostic that carries a file
object but lacks a defined start or a defined length — such a diagnostic is
in the translated output for no input — while diagnostics with no file at all
are passed through unchanged. -/
theorem C10_transformDiagnostics (ctx : ProgramCtx) (ds : DiagList) (d : Diag) :
    (d.file ≠ none → (d.dstart = none ∨ d.dlength = none) →
      d ∉ (transformDiagnostics ctx ds).toList)
    ∧ (d ∈ ds.toList → d.file = none → d ∈ (transformDiagnostics ctx ds).toList) := by
  constructor
  · intro hf hsl hmem
    rw [mem_transform] at hmem
    obtain ⟨d0, hd0, hmem⟩ := hmem
    rcases transformOne_shape ctx d0 d hmem with ⟨⟨so, hso⟩, ⟨lo, hlo⟩⟩ | ⟨heq, hf0⟩
    · rcases hsl with h | h
      · rw [h] at hso; cases hso
      · rw [h] at hlo; cases hlo
    · subst heq; exact hf hf0
  · intro hmem hf
    rw [mem_transform]
    refine ⟨d, hmem, ?_⟩
    cases d with
    | mk file dstart dlength related payload =>
      simp only [Diag.file] at hf
      subst hf
      rw [transformOne_noFile]
      simp [DiagList.toList]

/-- C10 witness: a diagnostic with a file but no start offset is dropped from
the singleton output. -/
theorem C10_witness :
    (Diag.mk (some ⟨"/g.ts", "", 0⟩) none (some 3) .undef 7).file ≠ none
    ∧ ((Diag.mk (some ⟨"/g.ts", "", 0⟩) none (some 3) .undef 7).dstart = none
       ∨ (Diag.mk (some ⟨"/g.ts", "", 0⟩) none (some 3) .undef 7).dlength = none)
    ∧ (Diag.mk (some ⟨"/g.ts", "", 0⟩) none (some 3) .undef 7) ∉
        (transformDiagnostics
          { getVirtualFileP := fun _ => none
            getMapsP := fun _ => []
            fileExistsP := none }
          (.cons (Diag.mk (some ⟨"/g.ts", "", 0⟩) none (some 3) .undef 7) .nil)).toList :=
  ⟨by decide, Or.inl rfl,
   (C10_transformDiagnostics
     { getVirtualFileP := fun _ => none
       getMapsP := fun _ => []
       fileExistsP := none }
     (.cons (Diag.mk (some ⟨"/g.ts", "", 0⟩) none (some 3) .undef 7) .nil)
     (Diag.mk (some ⟨"/g.ts", "", 0⟩) none (some 3) .undef 7)).1
     (by decide) (Or.inl rfl)⟩

/-- C2: for a diagnostic resolving to a generated unit of an existing source
document, a source-mapped version appears in the translated output only if
some diagnostic-capable mapping range matches its start offset and some
diagnostic-capable range matches its end offset (end-inclusive); when no
matching map has such a capability-tagged pair, the diagnostic is absent from
the output entirely. -/
theorem C2_transformDiagnostics (ctx : ProgramCtx) (f : TFile) (s l : Nat)
    (related : DiagRel) (payload : Nat) (virtualFileName : String)
    (source : SourceInfo)
    (hres : ctx.getVirtualFileP f.fileName = some (virtualFileName, source))
    (hex : feIsFalse ctx source.fileName = false) :
    (transformDiagnostics ctx
        (.cons (.mk (some f) (some s) (some l) related payload) .nil) ≠ .nil →
      ∃ m ∈ ctx.getMapsP virtualFileName, m.1 = source.fileName ∧
        (∃ q ∈ toSourceOffsets m.2 s false, q.2.diagnostic = true) ∧
        (∃ q ∈ toSourceOffsets m.2 (s + l) true, q.2.diagnostic = true))
    ∧ ((∀ m ∈ ctx.getMapsP virtualFileName, m.1 = source.fileName →
          ¬((∃ q ∈ toSourceOffsets m.2 s false, q.2.diagnostic = true) ∧
            (∃ q ∈ toSourceOffsets m.2 (s + l) true, q.2.diagnostic = true))) →
        transformDiagnostics ctx
          (.cons (.mk (some f) (some s) (some l) related payload) .nil) = .nil) := by
  have hsingle : transformDiagnostics ctx
      (.cons (.mk (some f) (some s) (some l) related payload) .nil)
      = transformOne ctx (.mk (some f) (some s) (some l) related payload) := by
    rw [transformDiagnostics, transformDiagnostics, DiagList_append_nil]
  rw [hsingle,
    transformOne_virtual ctx f s l related payload virtualFileName source hres hex]
  constructor
  · intro h
    exact mapsLoop_exists _ _ _ _ _ h
  · intro h
    exact mapsLoop_nil _ _ _ _ _ h

/-- C2 witness: a diagnostic inside a mapping range whose diagnostic
capability bit is unset is dropped entirely. -/
theorem C2_witness :
    (ProgramCtx.mk
        (fun n => if n = "/a.vue.ts"
          then some ("/a.vue.ts", SourceInfo.mk "/a.vue" "text") else none)
        (fun _ => [("/a.vue", [Mapping.mk 0 100 0 100 false])])
        (some (fun _ => true))).getVirtualFileP "/a.vue.ts"
      = some ("/a.vue.ts", SourceInfo.mk "/a.vue" "text")
    ∧ transformDiagnostics
        (ProgramCtx.mk
          (fun n => if n = "/a.vue.ts"
            then some ("/a.vue.ts", SourceInfo.mk "/a.vue" "text") else none)
          (fun _ => [("/a.vue", [Mapping.mk 0 100 0 100 false])])
          (some (fun _ => true)))
        (.cons (.mk (some (TFile.mk "/a.vue.ts" "gen" 0)) (some 5) (some 2) .undef 9) .nil)
      = .nil :=
  ⟨by decide,
   (C2_transformDiagnostics
     (ProgramCtx.mk
       (fun n => if n = "/a.vue.ts"
         then some ("/a.vue.ts", SourceInfo.mk "/a.vue" "text") else none)
       (fun _ => [("/a.vue", [Mapping.mk 0 100 0 100 false])])
       (some (fun _ => true)))
     (TFile.mk "/a.vue.ts" "gen" 0) 5 2 .undef 9 "/a.vue.ts"
     (SourceInfo.mk "/a.vue" "text") (by decide) rfl).2 (by decide)⟩

/-! C1: project-version bumping. -/

theorem dedupKeep_mem (y : String) : ∀ l : List String, y ∈ dedupKeep l ↔ y ∈ l := by
  intro l
  induction l with
  | nil => simp [dedupKeep]
  | cons x xs ih =>
    simp only [dedupKeep, List.mem_cons, List.mem_filter, ih]
    by_cases hy : y = x
    · simp [hy]
    · simp [hy]

theorem lookupA_isSome {α : Type} (k : String) : ∀ l : List (String × α),
    (lookupA l k).isSome = true ↔ ∃ e ∈ l, e.1 = k := by
  intro l
  induction l with
  | nil => simp [lookupA]
  | cons e rest ih =>
    obtain ⟨k1, v⟩ := e
    by_cases h : k1 = k
    · simp [lookupA, h]
    · simp only [lookupA, if_neg h, List.mem_cons, ih]
      constructor
      · rintro ⟨e, he, hk⟩
        exact ⟨e, Or.inr he, hk⟩
      · rintro ⟨e, he | he, hk⟩
        · subst he; simp at hk; exact absurd hk h
        · exact ⟨e, he, hk⟩

theorem step1_flag (host : Host) (mods : List LanguageModuleF) :
    ∀ (srcs : List (String × SourceDoc)) (store : Store)
      (sfv : List (String × String)) (remain : List String) (flag : Bool) (num : Nat),
    (∀ e ∈ srcs, (host.getScriptSnapshot e.1).isSome = true) →
    (step1 host mods srcs (store, sfv, remain, flag, num)).2.2.2.1 = flag := by
  intro srcs
  induction srcs with
  | nil => intro store sfv remain flag num _; rfl
  | cons e rest ih =>
    intro store sfv remain flag num hall
    obtain ⟨fileName, doc⟩ := e
    have hs := hall (fileName, doc) (List.mem_cons_self _ _)
    rw [step1]
    cases hsnap : host.getScriptSnapshot fileName with
    | none => rw [hsnap] at hs; simp at hs
    | some snapshot =>
      simp only []
      by_cases hv : lookupA sfv fileName = some (host.getScriptVersion fileName)
      · rw [if_pos hv]
        exact ih _ _ _ _ _ (fun e he => hall e (List.mem_cons_of_mem _ he))
      · rw [if_neg hv]
        exact ih _ _ _ _ _ (fun e he => hall e (List.mem_cons_of_mem _ he))

theorem step1_num_mono (host : Host) (mods : List LanguageModuleF) :
    ∀ (srcs : List (String × SourceDoc)) (store : Store)
      (sfv : List (String × String)) (remain : List String) (flag : Bool) (num : Nat),
    num ≤ (step1 host mods srcs (store, sfv, remain, flag, num)).2.2.2.2 := by
  intro srcs
  induction srcs with
  | nil => intro store sfv remain flag num; exact Nat.le_refl num
  | cons e rest ih =>
    intro store sfv remain flag num
    obtain ⟨fileName, doc⟩ := e
    rw [step1]
    cases hsnap : host.getScriptSnapshot fileName with
    | none =>
      simp only []
      exact Nat.le_trans (Nat.le_succ num) (ih _ _ _ _ _)
    | some snapshot =>
      simp only []
      by_cases hv : lookupA sfv fileName = some (host.getScriptVersion fileName)
      · rw [if_pos hv]
        exact ih _ _ _ _ _
      · rw [if_neg hv]
        exact Nat.le_trans (Nat.le_succ num) (ih _ _ _ _ _)

theorem step1_num_bump (host : Host) (mods : List LanguageModuleF) :
    ∀ (srcs : List (String × SourceDoc)) (store : Store)
      (sfv : List (String × String)) (remain : List String) (flag : Bool) (num : Nat),
    (∀ e ∈ srcs, (host.getScriptSnapshot e.1).isSome = true) →
    (∃ e ∈ srcs, lookupA sfv e.1 ≠ some (host.getScriptVersion e.1)) →
    num + 1 ≤ (step1 host mods srcs (store, sfv, remain, flag, num)).2.2.2.2 := by
  intro srcs
  induction srcs with
  | nil =>
    intro store sfv remain flag num _ hex
    simp at hex
  | cons e rest ih =>
    intro store sfv remain flag num hall hex
    obtain ⟨fileName, doc⟩ := e
    have hs := hall (fileName, doc) (List.mem_cons_self _ _)
    rw [step1]
    cases hsnap : host.getScriptSnapshot fileName with
    | none => rw [hsnap] at hs; simp at hs
    | some snapshot =>
      simp only []
      by_cases hv : lookupA sfv fileName = some (host.getScriptVersion fileName)
      · rw [if_pos hv]
        obtain ⟨e, he, hne⟩ := hex
        rcases List.mem_cons.mp he with heq | hrest
        · subst heq; exact absurd hv hne
        · exact ih _ _ _ _ _ (fun e he => hall e (List.mem_cons_of_mem _ he))
            ⟨e, hrest, hne⟩
      · rw [if_neg hv]
        exact step1_num_mono host mods rest _ _ _ _ _

theorem step1_remain (host : Host) (mods : List LanguageModuleF) :
    ∀ (srcs : List (String × SourceDoc)) (store : Store)
      (sfv : List (String × String)) (remain : List String) (flag : Bool) (num : Nat),
    (step1 host mods srcs (store, sfv, remain, flag, num)).2.2.1
      = remain.filter (fun y => srcs.all (fun e => y != e.1)) := by
  intro srcs
  induction srcs with
  | nil =>
    intro store sfv remain flag num
    simp [step1]
  | cons e rest ih =>
    intro store sfv remain flag num
    obtain ⟨fileName, doc⟩ := e
    have hcomp : ∀ (rem : List String),
        (rem.filter (fun y => y != fileName)).filter
            (fun y => rest.all (fun e => y != e.1))
          = rem.filter (fun y => ((fileName, doc) :: rest).all (fun e => y != e.1)) := by
      intro rem
      rw [List.filter_filter]
      apply List.filter_congr
      intro x _
      simp [List.all_cons, Bool.and_comm]
    rw [step1]
    cases hsnap : host.getScriptSnapshot fileName with
    | none =>
      simp only []
      rw [ih _ _ _ _ _, hcomp]
    | some snapshot =>
      simp only []
      by_cases hv : lookupA sfv fileName = some (host.getScriptVersion fileName)
      · rw [if_pos hv, ih _ _ _ _ _, hcomp]
      · rw [if_neg hv, ih _ _ _ _ _, hcomp]

theorem step2_remain_sub (host : Host) (mods : List LanguageModuleF) :
    ∀ (rl : List String) (store : Store) (remain : List String),
    ∀ y ∈ (step2 host mods rl (store, remain)).2, y ∈ remain := by
  intro rl
  induction rl with
  | nil => intro store remain y hy; exact hy
  | cons fileName rest ih =>
    intro store remain y hy
    rw [step2] at hy
    cases hsnap : host.getScriptSnapshot fileName with
    | none =>
      rw [hsnap] at hy
      exact ih _ _ y hy
    | some snapshot =>
      rw [hsnap] at hy
      simp only [] at hy
      cases hu : (updateSource mods store fileName snapshot
          (host.getScriptLanguageId fileName)).1 with
      | some vf =>
        rw [hu] at hy
        simp only [] at hy
        have := ih _ _ y hy
        exact (List.mem_filter.mp this).1
      | none =>
        rw [hu] at hy
        simp only [] at hy
        exact ih _ _ y hy

theorem step3a_noop (host : Host) (remain : List String) :
    ∀ (entries : List (String × String)) (tsv : List (String × String)) (flag : Bool),
    (∀ e ∈ entries, host.getScriptVersion e.1 = e.2) →
    step3a host remain entries (tsv, flag) = (tsv, flag) := by
  intro entries
  induction entries with
  | nil => intro tsv flag _; rfl
  | cons e rest ih =>
    intro tsv flag hall
    obtain ⟨oldTsFileName, oldTsFileVersion⟩ := e
    have he := hall (oldTsFileName, oldTsFileVersion) (List.mem_cons_self _ _)
    simp only [] at he
    rw [step3a, if_pos he.symm]
    exact ih _ _ (fun e hmem => hall e (List.mem_cons_of_mem _ hmem))

theorem step3b_noop (host : Host) :
    ∀ (remain : List String) (tsv : List (String × String)) (flag : Bool),
    (∀ f ∈ remain, hasA tsv f = true) →
    step3b host remain (tsv, flag) = (tsv, flag) := by
  intro remain
  induction remain with
  | nil => intro tsv flag _; rfl
  | cons f rest ih =>
    intro tsv flag hall
    have hf := hall f (List.mem_cons_self _ _)
    rw [step3b, if_pos hf]
    exact ih _ _ (fun g hmem => hall g (List.mem_cons_of_mem _ hmem))

theorem embeddedDrift_false (vfv : List (String × VFVersion)) (store : Store)
    (h : ∀ e ∈ store, ∀ u ∈ VFile.allEmbedded e.2.root, u.kind = tsHostFileKind →
      ∀ rec : VFVersion, lookupA vfv u.fileName = some rec →
        rec.virtualFileSnapshot = u.snapshot) :
    embeddedDrift vfv store = false := by
  unfold embeddedDrift
  rw [List.any_eq_false]
  intro e he
  rw [Bool.not_eq_true, List.any_eq_false]
  intro u hu
  rw [Bool.not_eq_true, Bool.and_eq_false_iff]
  by_cases hk : u.kind = tsHostFileKind
  · right
    cases hl : lookupA vfv u.fileName with
    | none => rfl
    | some rec =>
      have := h e he u hu hk rec hl
      simp only []
      rw [this, bne_self_eq_false]
  · left
    simpa using hk

theorem updateBody_tsPV (host : Host) (mods : List LanguageModuleF) (st1 : CtxState) :
    (updateBody host mods st1).tsProjectVersion = st1.tsProjectVersion
    ∨ (updateBody host mods st1).tsProjectVersion = st1.tsProjectVersion + 1 := by
  unfold updateBody
  simp only []
  split
  · right; rfl
  · left; rfl

theorem updateBody_no_change (host : Host) (mods : List LanguageModuleF)
    (st1 : CtxState)
    (H1 : ∀ e ∈ st1.sources, (host.getScriptSnapshot e.1).isSome = true)
    (H2 : ∃ e ∈ st1.sources,
      lookupA st1.sourceFileVersions e.1 ≠ some (host.getScriptVersion e.1))
    (H3 : ∀ e ∈ st1.sourceTsFileVersions, host.getScriptVersion e.1 = e.2)
    (H4 : ∀ f ∈ host.getScriptFileNames,
      hasSource st1.sources f = true ∨ hasA st1.sourceTsFileVersions f = true)
    (H5 : ∀ e ∈ (updateBody host mods st1).sources,
      ∀ u ∈ VFile.allEmbedded e.2.root, u.kind = tsHostFileKind →
      ∀ rec : VFVersion, lookupA st1.virtualFileVersions u.fileName = some rec →
        rec.virtualFileSnapshot = u.snapshot) :
    (updateBody host mods st1).tsProjectVersion = st1.tsProjectVersion := by
  have h1f := step1_flag host mods st1.sources st1.sources st1.sourceFileVersions
    (dedupKeep host.getScriptFileNames) false 0 H1
  have hnum1 := step1_num_bump host mods st1.sources st1.sources st1.sourceFileVersions
    (dedupKeep host.getScriptFileNames) false 0 H1 H2
  have hne : ((step1 host mods st1.sources (st1.sources, st1.sourceFileVersions,
      dedupKeep host.getScriptFileNames, false, 0)).2.2.2.2 == 0) = false := by
    rw [beq_eq_false_iff_ne]
    omega
  have hb : ∀ f ∈ (step2 host mods
      (step1 host mods st1.sources (st1.sources, st1.sourceFileVersions,
        dedupKeep host.getScriptFileNames, false, 0)).2.2.1
      ((step1 host mods st1.sources (st1.sources, st1.sourceFileVersions,
        dedupKeep host.getScriptFileNames, false, 0)).1,
       (step1 host mods st1.sources (st1.sources, st1.sourceFileVersions,
        dedupKeep host.getScriptFileNames, false, 0)).2.2.1)).2,
      hasA st1.sourceTsFileVersions f = true := by
    intro f hf
    have hf1 := step2_remain_sub host mods _ _ _ f hf
    rw [step1_remain] at hf1
    obtain ⟨hfd, hall⟩ := List.mem_filter.mp hf1
    have hfroots := (dedupKeep_mem f _).mp hfd
    rcases H4 f hfroots with hhs | hts
    · exfalso
      rw [hasSource, hasA, lookupA_isSome] at hhs
      obtain ⟨e, he, hk⟩ := hhs
      have hbne := List.all_eq_true.mp hall e he
      rw [hk] at hbne
      simp at hbne
    · exact hts
  have H5' : ∀ e ∈ (step2 host mods
      (step1 host mods st1.sources (st1.sources, st1.sourceFileVersions,
        dedupKeep host.getScriptFileNames, false, 0)).2.2.1
      ((step1 host mods st1.sources (st1.sources, st1.sourceFileVersions,
        dedupKeep host.getScriptFileNames, false, 0)).1,
       (step1 host mods st1.sources (st1.sources, st1.sourceFileVersions,
        dedupKeep host.getScriptFileNames, false, 0)).2.2.1)).1,
      ∀ u ∈ VFile.allEmbedded e.2.root, u.kind = tsHostFileKind →
      ∀ rec : VFVersion, lookupA st1.virtualFileVersions u.fileName = some rec →
        rec.virtualFileSnapshot = u.snapshot := H5
  have hdrift := embeddedDrift_false st1.virtualFileVersions _ H5'
  unfold updateBody
  simp only []
  rw [h1f, hne, Bool.false_or]
  rw [step3a_noop host _ st1.sourceTsFileVersions st1.sourceTsFileVersions false H3]
  rw [step3b_noop host _ st1.sourceTsFileVersions false hb]
  simp only []
  rw [hdrift]
  simp

theorem update_eq_body (host : Host) (mods : List LanguageModuleF) (st : CtxState)
    (h : (host.getProjectVersion.isNone
      || host.getProjectVersion != st.lastProjectVersion) = true) :
    update host mods st
      = updateBody host mods { st with lastProjectVersion := host.getProjectVersion } := by
  unfold update
  simp only []
  rw [if_pos h]

theorem update_eq_skip (host : Host) (mods : List LanguageModuleF) (st : CtxState)
    (h : (host.getProjectVersion.isNone
      || host.getProjectVersion != st.lastProjectVersion) = false) :
    update host mods st = { st with lastProjectVersion := host.getProjectVersion } := by
  unfold update
  simp only []
  rw [if_neg (by rw [h]; exact Bool.false_ne_true)]

/-- C1: over one lazy update cycle the project version counter moves by at
most one; a cycle whose host project version is unchanged (and defined) is a
complete no-op; and a full cycle in which nothing engine-visible changed —
no document deletion, some document version-string change (so the
change-by-definition rule does not apply), no plain-file version change,
addition or removal, and no engine-visible generated-unit snapshot drift —
leaves the counter unchanged. -/
theorem C1_projectVersion (host : Host) (mods : List LanguageModuleF) (st : CtxState) :
    ((update host mods st).tsProjectVersion = st.tsProjectVersion
      ∨ (update host mods st).tsProjectVersion = st.tsProjectVersion + 1)
    ∧ (∀ v : String, host.getProjectVersion = some v →
        st.lastProjectVersion = some v → update host mods st = st)
    ∧ (noEngineVisibleChange host mods st →
        (update host mods st).tsProjectVersion = st.tsProjectVersion) := by
  refine ⟨?_, ?_, ?_⟩
  · cases hsu : (host.getProjectVersion.isNone
        || host.getProjectVersion != st.lastProjectVersion) with
    | false => rw [update_eq_skip host mods st hsu]; left; rfl
    | true =>
      rw [update_eq_body host mods st hsu]
      exact updateBody_tsPV host mods _
  · intro v hGet hLast
    have hb : (host.getProjectVersion.isNone
        || host.getProjectVersion != st.lastProjectVersion) = false := by
      rw [hGet, hLast]
      simp
    rw [update_eq_skip host mods st hb, hGet, ← hLast]
  · intro hchange
    obtain ⟨H1, H2, H3, H4, H5⟩ := hchange
    cases hsu : (host.getProjectVersion.isNone
        || host.getProjectVersion != st.lastProjectVersion) with
    | false => rw [update_eq_skip host mods st hsu]
    | true =>
      rw [update_eq_body host mods st hsu]
      rw [update_eq_body host mods st hsu] at H5
      exact updateBody_no_change host mods _ H1 H2 H3 H4 H5

/-- C1 witness: a full cycle on the concrete state (host project version
changed, one document's version string changed but its engine-visible unit
snapshot did not) keeps the counter at 5, and a cycle with an unchanged host
project version is a complete no-op. -/
theorem C1_witness :
    noEngineVisibleChange hostA [modA] stA
    ∧ (update hostA [modA] stA).tsProjectVersion = stA.tsProjectVersion
    ∧ update hostB [modA] stA = stA :=
  ⟨by decide,
   (C1_projectVersion hostA [modA] stA).2.2 (by decide),
   (C1_projectVersion hostB [modA] stA).2.1 "1" rfl rfl⟩

/-! C4: reference-chain traversal. -/

theorem filter_len_lt (l : List String) (F G : String → Bool)
    (himp : ∀ x, F x = true → G x = true)
    (x0 : String) (hx0 : x0 ∈ l) (hG : G x0 = true) (hF : F x0 = false) :
    (l.filter F).length < (l.filter G).length := by
  have h1 : l.filter F = (l.filter G).filter F := by
    rw [List.filter_filter]
    apply List.filter_congr
    intro x _
    cases hFx : F x with
    | false => simp
    | true => simp [himp x hFx]
  rw [h1]
  apply List.length_filter_lt_length_iff_exists.mpr
  exact ⟨x0, List.mem_filter.mpr ⟨hx0, hG⟩, by simp [hF]⟩

theorem lookupCfg_mem_keys (g : CfgGraph) (p : String) (refs2 : List String)
    (hcfg : lookupCfg g p = some refs2) : p ∈ g.map Prod.fst := by
  unfold lookupCfg at hcfg
  rcases Option.map_eq_some'.mp hcfg with ⟨e, he, _⟩
  have hep : e.1 = p := by simpa using List.find?_some he
  exact hep ▸ List.mem_map_of_mem Prod.fst (List.mem_of_find?_eq_some he)

theorem lookupCfg_mem_entry (g : CfgGraph) (p : String) (refs2 : List String)
    (hcfg : lookupCfg g p = some refs2) : (p, refs2) ∈ g := by
  unfold lookupCfg at hcfg
  rcases Option.map_eq_some'.mp hcfg with ⟨e, he, he2⟩
  have hep : e.1 = p := by simpa using List.find?_some he
  have hmem := List.mem_of_find?_eq_some he
  obtain ⟨e1, e2⟩ := e
  simp only [] at hep he2
  subst hep
  subst he2
  exact hmem

theorem chainMeasure_lt (g : CfgGraph) (tsConfig p : String) (before : List String)
    (refs2 : List String)
    (hmem : ¬ before.contains p = true)
    (hcfg : lookupCfg g p = some refs2) :
    chainMeasure g p (before ++ [tsConfig]) < chainMeasure g tsConfig before := by
  have hnb : p ∉ before := fun h => hmem (List.elem_iff.mpr h)
  have hpK : p ∈ (g.map Prod.fst).dedup :=
    List.mem_dedup.mpr (lookupCfg_mem_keys g p refs2 hcfg)
  unfold chainMeasure
  by_cases hpt : p = tsConfig
  · subst hpt
    have hfeq : ((g.map Prod.fst).dedup.filter
        (fun k => !(decide (k ∈ before ++ [p]) || decide (k = p)))) =
        ((g.map Prod.fst).dedup.filter
        (fun k => !(decide (k ∈ before) || decide (k = p)))) := by
      apply List.filter_congr
      intro x _
      by_cases hx : x = p
      · subst hx; simp
      · simp [List.mem_append, hx]
    rw [hfeq]
    have h1 : p ∈ before ++ [p] := by simp
    rw [if_pos h1, if_neg hnb]
    omega
  · have hlt : ((g.map Prod.fst).dedup.filter
        (fun k => !(decide (k ∈ before ++ [tsConfig]) || decide (k = p)))).length <
        ((g.map Prod.fst).dedup.filter
        (fun k => !(decide (k ∈ before) || decide (k = tsConfig)))).length := by
      apply filter_len_lt _ _ _ _ p hpK
      · simp [hnb, hpt]
      · simp
      · intro x hFx
        simp only [Bool.not_eq_true', Bool.or_eq_false_iff, decide_eq_false_iff_not,
          List.mem_append, List.mem_singleton] at hFx ⊢
        exact ⟨fun h => hFx.1 (Or.inl h), fun h => hFx.1 (Or.inr h)⟩
    have hflag : (if p ∈ before ++ [tsConfig] then 0 else 1) ≤ 1 := by
      split <;> omega
    have hflag2 : (0 : Nat) ≤ (if tsConfig ∈ before then 0 else 1) := by omega
    omega

theorem chains_inv (g : CfgGraph) (fe : String → Bool)
    (hins : ∀ e ∈ g, ∀ r ∈ e.2, resolveRefPath fe r ≠ e.1) :
    ∀ N : Nat, ∀ (refs : List String) (tsConfig : String) (before : List String),
    chainMeasure g tsConfig before ≤ N →
    lookupCfg g tsConfig = some refs →
    (before ++ [tsConfig]).Nodup →
    (∀ x ∈ before ++ [tsConfig], x ∈ g.map Prod.fst) →
    ∀ chain ∈ getReferencesChains g fe refs tsConfig before,
      chain.Nodup ∧ ∀ x ∈ chain, x ∈ g.map Prod.fst := by
  intro N
  induction N using Nat.strong_induction_on with
  | _ N IH =>
  intro refs tsConfig before hm hlk hnd hsub chain hchain
  rw [getReferencesChains] at hchain
  by_cases hemp : refs.isEmpty
  · rw [if_pos hemp] at hchain
    rw [List.mem_singleton] at hchain
    subst hchain
    exact ⟨hnd, hsub⟩
  · rw [if_neg hemp] at hchain
    have hentry : (tsConfig, refs) ∈ g := lookupCfg_mem_entry g tsConfig refs hlk
    have aux : ∀ rs : List String, (∀ r ∈ rs, r ∈ refs) →
        ∀ c ∈ refChains g fe rs tsConfig before,
          c.Nodup ∧ ∀ x ∈ c, x ∈ g.map Prod.fst := by
      intro rs
      induction rs with
      | nil =>
        intro _ c hc
        rw [refChains] at hc
        simp at hc
      | cons r rest ihr =>
        intro hsub2 c hc
        rw [refChains] at hc
        rw [List.mem_append] at hc
        rcases hc with hc | hc
        · simp only [] at hc
          split at hc
          · -- cycle truncation: a prefix of `before`
            rw [List.mem_singleton] at hc
            subst hc
            have hbn : before.Nodup := (List.nodup_append.mp hnd).1
            refine ⟨(List.take_sublist _ _).nodup hbn, ?_⟩
            intro x hx
            have hxb : x ∈ before := (List.take_sublist _ _).subset hx
            exact hsub x (List.mem_append.mpr (Or.inl hxb))
          · rename_i hmem2
            split at hc
            · rename_i refs2 hcfg
              have hpkeys := lookupCfg_mem_keys g (resolveRefPath fe r) refs2 hcfg
              have hpne : resolveRefPath fe r ≠ tsConfig :=
                hins (tsConfig, refs) hentry r (hsub2 r (List.mem_cons_self _ _))
              have hpnb : resolveRefPath fe r ∉ before :=
                fun hin => hmem2 (List.elem_iff.mpr hin)
              have hnd' : ((before ++ [tsConfig]) ++ [resolveRefPath fe r]).Nodup := by
                rw [List.nodup_append]
                refine ⟨hnd, List.nodup_singleton _, ?_⟩
                intro x hx hx2
                rw [List.mem_singleton] at hx2
                subst hx2
                rcases List.mem_append.mp hx with hx | hx
                · exact hpnb hx
                · rw [List.mem_singleton] at hx
                  exact hpne hx
              have hsub' : ∀ x ∈ (before ++ [tsConfig]) ++ [resolveRefPath fe r],
                  x ∈ g.map Prod.fst := by
                intro x hx
                rcases List.mem_append.mp hx with hx | hx
                · exact hsub x hx
                · rw [List.mem_singleton] at hx
                  subst hx
                  exact hpkeys
              have hlt := chainMeasure_lt g tsConfig (resolveRefPath fe r) before
                refs2 hmem2 hcfg
              exact IH (chainMeasure g (resolveRefPath fe r) (before ++ [tsConfig]))
                (Nat.lt_of_lt_of_le hlt hm) refs2 (resolveRefPath fe r)
                (before ++ [tsConfig]) (Nat.le_refl _) hcfg hnd' hsub' c hc
            · simp at hc
        · exact ihr (fun r2 h2 => hsub2 r2 (List.mem_cons_of_mem _ h2)) c hc
    exact aux refs (fun r h => h) chain hchain

/-- C4 (amended): `getReferencesChains` terminates on every finite
configuration graph (the embedding is total, by well-founded recursion on the
code's own cycle guard), and — provided no configuration directly references
itself — every returned chain contains no repeated configuration and is no
longer than the number of distinct configurations. -/
theorem C4_getReferencesChains (g : CfgGraph) (fe : String → Bool)
    (refs : List String) (tsConfig : String)
    (hins : ∀ e ∈ g, ∀ r ∈ e.2, resolveRefPath fe r ≠ e.1)
    (hlk : lookupCfg g tsConfig = some refs) :
    ∀ chain ∈ getReferencesChains g fe refs tsConfig [],
      chain.Nodup ∧ chain.length ≤ (g.map Prod.fst).dedup.length := by
  intro chain hchain
  have hmemb : ∀ x ∈ ([] : List String) ++ [tsConfig], x ∈ g.map Prod.fst := by
    intro x hx
    simp only [List.nil_append, List.mem_singleton] at hx
    subst hx
    exact lookupCfg_mem_keys g x refs hlk
  have hP := chains_inv g fe hins (chainMeasure g tsConfig []) refs tsConfig []
    (Nat.le_refl _) hlk (by simp) hmemb chain hchain
  obtain ⟨hnd, hsubk⟩ := hP
  refine ⟨hnd, ?_⟩
  have h1 : chain.toFinset.card = chain.length := List.toFinset_card_of_nodup hnd
  have h2 : chain.toFinset ⊆ (g.map Prod.fst).toFinset := by
    intro x hx
    rw [List.mem_toFinset] at hx ⊢
    exact hsubk x hx
  have h3 := Finset.card_le_card h2
  rw [h1, List.card_toFinset] at h3
  exact h3

/-- C4 counterexample: with a self-referencing configuration A → {A, B} the
traversal returns the chain ["A", "A", "B"], which repeats configuration A
and is longer than the number of distinct configurations (two). -/
theorem C4_counterexample :
    ["A", "A", "B"] ∈ getReferencesChains [("A", ["A", "B"]), ("B", [])]
        (fun _ => true) ["A", "B"] "A" []
    ∧ ¬ (["A", "A", "B"] : List String).Nodup
    ∧ (["A", "A", "B"] : List String).length >
        ((List.map Prod.fst [("A", ["A", "B"]), ("B", [])]).dedup.length) := by
  have hY2 : getReferencesChains [("A", ["A", "B"]), ("B", [])] (fun _ => true)
      [] "B" ["A", "A"] = [["A", "A", "B"]] := by
    rw [getReferencesChains]
    simp
  have hY : getReferencesChains [("A", ["A", "B"]), ("B", [])] (fun _ => true)
      [] "B" ["A"] = [["A", "B"]] := by
    rw [getReferencesChains]
    simp
  have hXr : refChains [("A", ["A", "B"]), ("B", [])] (fun _ => true)
      ["A", "B"] "A" ["A"] = [["A"], ["A", "A", "B"]] := by
    rw [refChains, refChains, refChains]
    simp [resolveRefPath, replaceBackslashes, pathJoin, firstIdx, lookupCfg,
      List.find?, hY2]
  have hX : getReferencesChains [("A", ["A", "B"]), ("B", [])] (fun _ => true)
      ["A", "B"] "A" ["A"] = [["A"], ["A", "A", "B"]] := by
    rw [getReferencesChains]
    simp [hXr]
  have htopr : refChains [("A", ["A", "B"]), ("B", [])] (fun _ => true)
      ["A", "B"] "A" [] = [["A"], ["A", "A", "B"], ["A", "B"]] := by
    rw [refChains, refChains, refChains]
    simp [resolveRefPath, replaceBackslashes, pathJoin, firstIdx, lookupCfg,
      List.find?, hX, hY]
  have htop : getReferencesChains [("A", ["A", "B"]), ("B", [])] (fun _ => true)
      ["A", "B"] "A" [] = [["A"], ["A", "A", "B"], ["A", "B"]] := by
    rw [getReferencesChains]
    simp [htopr]
  rw [htop]
  refine ⟨by simp, by decide, by decide⟩

/-- C4 witness: the mutual-reference cycle A → B → A with no self reference
yields only the duplicate-free chain ["A"], within the distinct-count bound. -/
theorem C4_witness :
    (∀ e ∈ [("A", ["B"]), ("B", ["A"])], ∀ r ∈ e.2,
      resolveRefPath (fun _ => true) r ≠ e.1)
    ∧ lookupCfg [("A", ["B"]), ("B", ["A"])] "A" = some ["B"]
    ∧ ∀ chain ∈ getReferencesChains [("A", ["B"]), ("B", ["A"])] (fun _ => true)
        ["B"] "A" [],
        chain.Nodup ∧ chain.length ≤
          ((List.map Prod.fst [("A", ["B"]), ("B", ["A"])]).dedup.length) :=
  ⟨by decide, rfl,
   C4_getReferencesChains [("A", ["B"]), ("B", ["A"])] (fun _ => true) ["B"] "A"
     (by decide) rfl⟩
